import Mathlib

/-!
Verification development for the Meshtastic channel-URL codec (`app.py`).

Modelling conventions, used throughout:

* A Python `str` is modelled as a `List Nat` of the code units of its UTF-8
  encoding (inputs relevant to the claims are ASCII, where code points and
  bytes coincide).  A Python `bytes` value is likewise a `List Nat` with
  entries below 256.
* Fallible library calls (`base64.b64decode`, `bytes.fromhex`, protobuf
  `ParseFromString`) are modelled as `Option`-valued functions; an exception
  in the source corresponds to `none` here.
* The behaviour of the CPython library functions used by the source
  (`binascii.a2b_base64` in non-strict mode, `bytes.fromhex`,
  `urllib.parse.urlsplit` / `parse_qs`) is reproduced exactly on the inputs
  the claims range over; the model of each is documented at its definition.
* Protobuf messages are modelled at the wire level (varint / length-delimited
  / fixed32 / fixed64 records) together with a per-message interpretation of
  the known fields, following the `meshtastic` protobuf schema definitions
  the source imports.  proto3 presence discipline (scalar fields are absent
  from `MessageToDict` output when equal to their default) is reflected in
  the validators.
-/

/-! ### Byte-string helpers -/

/-- UTF-8 code units of an ASCII string literal. -/
def strBytes (s : String) : List Nat := s.data.map Char.toNat

/-- Test whether `pat` is a prefix of `l` (Python `str.startswith`). -/
def listStartsWith : List Nat → List Nat → Bool
  | [], _ => true
  | _ :: _, [] => false
  | p :: ps, x :: xs => p == x && listStartsWith ps xs

/-- Test whether `pat` occurs as a contiguous substring of `l`
(Python `pat in l` on strings). -/
def hasSubstr (pat : List Nat) : List Nat → Bool
  | [] => listStartsWith pat []
  | x :: t => listStartsWith pat (x :: t) || hasSubstr pat t

/-- Split off everything after the first occurrence of `sep`:
returns the part before it and, when `sep` occurs, the part after it. -/
def breakAt (sep : Nat) : List Nat → List Nat × Option (List Nat)
  | [] => ([], none)
  | b :: r =>
    if b == sep then ([], some r)
    else
      let (p, q) := breakAt sep r
      (b :: p, q)

/-! ### URL splitting (`urllib.parse.urlparse`)

`urlsplit` first strips a scheme (`alpha (alpha|digit|+|-|.)* :`), then a
`//netloc` part (up to the first of `/`, `?`, `#`, and raising
`ValueError("Invalid IPv6 URL")` on unbalanced brackets), then splits the
fragment at the first `#` and the query at the first `?`.  `urlparse`
additionally splits `;params` off the last path segment; the decoder only
reads `.fragment` and `.query`, and no claim input contains `;`, so params
splitting is not modelled. -/

structure UrlParts where
  scheme : List Nat := []
  netloc : List Nat := []
  path : List Nat := []
  query : List Nat := []
  fragment : List Nat := []
deriving Repr, DecidableEq

/-- ASCII letter test (Python `str.isalpha` restricted to ASCII, as used by
the scheme check). -/
def isAlphaB (c : Nat) : Bool := (65 ≤ c && c ≤ 90) || (97 ≤ c && c ≤ 122)

/-- Characters allowed in a URL scheme after the first letter. -/
def isSchemeChar (c : Nat) : Bool :=
  isAlphaB c || (48 ≤ c && c ≤ 57) || c == 43 || c == 45 || c == 46

/-- Scheme lowering: `str.lower` on ASCII. -/
def lowerB (c : Nat) : Nat := if 65 ≤ c ∧ c ≤ 90 then c + 32 else c

/-- Strip a leading scheme, returning `(scheme, rest)`; the scheme is empty
when the URL has none. -/
def splitScheme (u : List Nat) : List Nat × List Nat :=
  match breakAt 58 u with
  | (_, none) => ([], u)
  | (pre, some rest) =>
    match pre with
    | [] => ([], u)
    | c :: cs =>
      if isAlphaB c && (c :: cs).all isSchemeChar then ((c :: cs).map lowerB, rest)
      else ([], u)

/-- Strip a leading `//netloc`, returning `(netloc, rest)`. -/
def splitNetloc (u : List Nat) : List Nat × List Nat :=
  match u with
  | 47 :: 47 :: r =>
    (r.takeWhile (fun c => !(c == 47 || c == 63 || c == 35)),
     r.dropWhile (fun c => !(c == 47 || c == 63 || c == 35)))
  | _ => ([], u)

/-- Model of `urllib.parse.urlsplit`; `Except.error` is the
`ValueError("Invalid IPv6 URL")` raised on unbalanced netloc brackets. -/
def urlsplitPy (u : List Nat) : Except String UrlParts :=
  let (scheme, r1) := splitScheme u
  let (netloc, r2) := splitNetloc r1
  if (netloc.contains 91 && !netloc.contains 93)
      || (netloc.contains 93 && !netloc.contains 91) then
    .error "Invalid IPv6 URL"
  else
    let (r3, frag) := breakAt 35 r2
    let (path, query) := breakAt 63 r3
    .ok { scheme := scheme, netloc := netloc, path := path,
          query := query.getD [], fragment := frag.getD [] }

/-! ### Query-string parsing (`urllib.parse.parse_qs`)

Defaults apply: pairs are split on `&`, pairs without `=` or with an empty
raw value are dropped (`keep_blank_values=False`), and names and values are
percent-decoded with `+` mapped to space.  (CPython decodes the percent
bytes as UTF-8 with `errors='replace'`; in the byte-list model the raw bytes
are kept.  The difference is only observable for non-ASCII payloads, which
fail base64 decoding either way.) -/

/-- Hexadecimal digit value. -/
def hexDigitVal (c : Nat) : Option Nat :=
  if 48 ≤ c ∧ c ≤ 57 then some (c - 48)
  else if 65 ≤ c ∧ c ≤ 70 then some (c - 55)
  else if 97 ≤ c ∧ c ≤ 102 then some (c - 87)
  else none

/-- Model of `urllib.parse.unquote_plus`. -/
def unquote_plus : List Nat → List Nat
  | [] => []
  | 43 :: r => 32 :: unquote_plus r
  | 37 :: a :: b :: r =>
    match hexDigitVal a, hexDigitVal b with
    | some x, some y => (16 * x + y) :: unquote_plus r
    | _, _ => 37 :: unquote_plus (a :: b :: r)
  | c :: r => c :: unquote_plus r

/-- Split a query string on `&` (Python `str.split('&')`). -/
def splitOnAmp : List Nat → List (List Nat)
  | [] => [[]]
  | 38 :: r => [] :: splitOnAmp r
  | c :: r =>
    match splitOnAmp r with
    | [] => [[c]]
    | h :: t => (c :: h) :: t

/-- The name/value pairs `parse_qsl` would produce from a query string. -/
def qsPairs (q : List Nat) : List (List Nat × List Nat) :=
  (splitOnAmp q).filterMap fun nv =>
    if nv = [] then none
    else
      match breakAt 61 nv with
      | (_, none) => none
      | (n, some v) =>
        if v = [] then none else some (unquote_plus n, unquote_plus v)

/-- First value of the `c` query parameter, i.e. `parse_qs(query)['c'][0]`
when the key exists. -/
def firstCParam (q : List Nat) : Option (List Nat) :=
  (qsPairs q).findSome? fun nv => if nv.1 = [99] then some nv.2 else none

deriving instance DecidableEq for Except

/-! ### Base64 (`base64.b64decode`, `base64.urlsafe_b64encode`)

`b64decode` with `validate=False` (the default) first encodes the argument
string as ASCII (failing on any code point at or above 128), then runs
`binascii.a2b_base64` in non-strict mode: characters outside the standard
alphabet and `=` are skipped; data characters accumulate into quads emitting
three bytes per full quad; an `=` seen with fewer than two accumulated
characters is ignored; with two or three accumulated characters it counts
padding, and once quad position plus padding reaches four, decoding stops,
emitting one or two bytes and ignoring all further input; leftover data
characters at end of input are an error.  This matches CPython's observable
behaviour on all probed edge cases. -/

/-- Standard base64 alphabet value of a character. -/
def b64Val (c : Nat) : Option Nat :=
  if 65 ≤ c ∧ c ≤ 90 then some (c - 65)
  else if 97 ≤ c ∧ c ≤ 122 then some (c - 71)
  else if 48 ≤ c ∧ c ≤ 57 then some (c + 4)
  else if c = 43 then some 62
  else if c = 47 then some 63
  else none

/-- Bytes emitted for a quad cut short by padding (two or three data
characters). -/
def emitPartial : List Nat → List Nat
  | [a, b] => [a * 4 + b / 16]
  | [a, b, c] => [a * 4 + b / 16, (b % 16) * 16 + c / 4]
  | _ => []

/-- Core loop of `binascii.a2b_base64` (non-strict): arguments are the
remaining input, the data characters of the current quad, and the count of
padding characters seen in the current quad. -/
def b64Go : List Nat → List Nat → Nat → Option (List Nat)
  | [], acc, _ => if acc.isEmpty then some [] else none
  | c :: rest, acc, pads =>
    if c == 61 then
      if 2 ≤ acc.length then
        if 4 ≤ acc.length + pads + 1 then some (emitPartial acc)
        else b64Go rest acc (pads + 1)
      else b64Go rest acc pads
    else
      match b64Val c with
      | none => b64Go rest acc pads
      | some v =>
        match acc ++ [v] with
        | [a, b, c2, d] =>
          (b64Go rest [] 0).map
            (fun out => [a * 4 + b / 16, (b % 16) * 16 + c2 / 4, (c2 % 4) * 64 + d] ++ out)
        | acc2 => b64Go rest acc2 0

/-- Model of `base64.b64decode(s)` on a `str` argument with default
`validate=False`. -/
def b64decodePy (s : List Nat) : Option (List Nat) :=
  if s.any (fun c => 128 ≤ c) then none else b64Go s [] 0

/-- URL-safe base64 character for a six-bit value. -/
def b64uChr (v : Nat) : Nat :=
  if v < 26 then 65 + v
  else if v < 52 then 71 + v
  else if v < 62 then v - 4
  else if v = 62 then 45
  else 95

/-- Source `MeshtasticEncoder._base64url_encode`: URL-safe base64 with all
trailing padding stripped (so no `=` is ever produced). -/
def base64url_encode : List Nat → List Nat
  | b1 :: b2 :: b3 :: r =>
    b64uChr (b1 / 4) :: b64uChr (b1 % 4 * 16 + b2 / 16) ::
      b64uChr (b2 % 16 * 4 + b3 / 64) :: b64uChr (b3 % 64) :: base64url_encode r
  | [b1, b2] => [b64uChr (b1 / 4), b64uChr (b1 % 4 * 16 + b2 / 16), b64uChr (b2 % 16 * 4)]
  | [b1] => [b64uChr (b1 / 4), b64uChr (b1 % 4 * 16)]
  | [] => []

/-- The URL-safe-to-standard character substitution
(`data.replace('-', '+').replace('_', '/')`). -/
def toStdB64 (c : Nat) : Nat := if c == 45 then 43 else if c == 95 then 47 else c

/-- Source `MeshtasticDecoder._base64url_decode`: pad to a multiple of four
characters, substitute URL-safe characters, then standard base64 decoding.
The source's second attempt (`base64.urlsafe_b64decode`) receives the same
already-substituted text, so it fails exactly when the first attempt does
and is omitted. -/
def base64url_decode (data : List Nat) : Option (List Nat) :=
  let padded :=
    if data.length % 4 == 0 then data
    else data ++ List.replicate (4 - data.length % 4) 61
  b64decodePy (padded.map toStdB64)

/-! ### Hex decoding (`bytes.fromhex`)

ASCII whitespace is skipped between byte pairs but not within one; every
byte needs two adjacent hexadecimal digits. -/

/-- ASCII whitespace as skipped by `bytes.fromhex`. -/
def isHexWS (c : Nat) : Bool := c == 32 || c == 9 || c == 10 || c == 11 || c == 12 || c == 13

/-- Model of `bytes.fromhex`. -/
def fromhexPy : List Nat → Option (List Nat)
  | [] => some []
  | c :: r =>
    if isHexWS c then fromhexPy r
    else
      match hexDigitVal c, r with
      | some x, d :: r2 =>
        match hexDigitVal d with
        | some y => (fromhexPy r2).map ((16 * x + y) :: ·)
        | none => none
      | _, _ => none

/-! ### Protobuf wire format

The protobuf runtime the source relies on is modelled at the wire level.  A
serialized message is a sequence of tagged fields; parsing follows the
CPython `google.protobuf` decoder: varints are limited to ten bytes and
truncated to 64 bits, field number zero is an error, wire types 6 and 7 are
errors, unknown fields (including known field numbers carrying a
non-matching wire type) are skipped, and a known length-delimited
message-typed or string-typed field parses its payload recursively (strings
must be valid UTF-8).  Wire types 3 and 4 (groups) do not occur in any
input considered here and are modelled as parse errors. -/

/-- Little-endian base-128 varint encoding (for values below `2 ^ 64`). -/
def varintEnc (n : Nat) : List Nat :=
  if h : n < 128 then [n] else (n % 128 + 128) :: varintEnc (n / 128)
termination_by n
decreasing_by simp_wf; omega

/-- Varint decoding loop; the fuel argument bounds the number of
continuation bytes (CPython raises after a shift of 64, i.e. at most nine
continuation bytes before the final one). -/
def varintDecGo : List Nat → Nat → Option (Nat × List Nat)
  | [], _ => none
  | b :: rest, fuel =>
    if b < 128 then some (b, rest)
    else
      match fuel with
      | 0 => none
      | fuel + 1 => (varintDecGo rest fuel).map fun vr => (b - 128 + 128 * vr.1, vr.2)

/-- Varint decoding as the CPython decoder performs it: at most ten bytes,
result truncated to 64 bits. -/
def varintDec (l : List Nat) : Option (Nat × List Nat) :=
  (varintDecGo l 9).map fun vr => (vr.1 % 18446744073709551616, vr.2)

/-- Four little-endian bytes of a value below `2 ^ 32`. -/
def le4 (n : Nat) : List Nat :=
  [n % 256, n / 256 % 256, n / 65536 % 256, n / 16777216 % 256]

/-- Eight little-endian bytes of a value below `2 ^ 64`. -/
def le8 (n : Nat) : List Nat := le4 (n % 4294967296) ++ le4 (n / 4294967296)

/-- Read a fixed32 value. -/
def rd4 : List Nat → Option (Nat × List Nat)
  | b0 :: b1 :: b2 :: b3 :: r =>
    some (b0 + 256 * b1 + 65536 * b2 + 16777216 * b3, r)
  | _ => none

/-- Read a fixed64 value. -/
def rd8 : List Nat → Option (Nat × List Nat)
  | b0 :: b1 :: b2 :: b3 :: b4 :: b5 :: b6 :: b7 :: r =>
    some (b0 + 256 * b1 + 65536 * b2 + 16777216 * b3 + 4294967296 * b4
      + 1099511627776 * b5 + 281474976710656 * b6 + 72057594037927936 * b7, r)
  | _ => none

/-- A wire-level field value. -/
inductive WVal where
  | vint (n : Nat)
  | i64 (n : Nat)
  | bytes (bs : List Nat)
  | i32 (n : Nat)
deriving Repr, DecidableEq

/-- Wire type of a value. -/
def wireTypeOf : WVal → Nat
  | .vint _ => 0
  | .i64 _ => 1
  | .bytes _ => 2
  | .i32 _ => 5

/-- Serialization of one wire value. -/
def serWVal : WVal → List Nat
  | .vint n => varintEnc n
  | .i64 n => le8 n
  | .bytes bs => varintEnc bs.length ++ bs
  | .i32 n => le4 n

/-- Serialization of one tagged field. -/
def serField (f : Nat × WVal) : List Nat :=
  varintEnc (f.1 * 8 + wireTypeOf f.2) ++ serWVal f.2

/-- Serialization of a field sequence. -/
def serFields : List (Nat × WVal) → List Nat
  | [] => []
  | f :: fs => serField f ++ serFields fs

/-- Wire-level parsing loop; the fuel bounds the number of fields (each
field consumes at least one byte, so the input length is enough fuel). -/
def parseWireGo : Nat → List Nat → Option (List (Nat × WVal))
  | _, [] => some []
  | 0, _ :: _ => none
  | fuel + 1, l =>
    match varintDec l with
    | none => none
    | some (tag, r) =>
      if tag / 8 = 0 then none
      else if tag % 8 = 0 then
        match varintDec r with
        | none => none
        | some (v, r2) => (parseWireGo fuel r2).map fun fs => (tag / 8, WVal.vint v) :: fs
      else if tag % 8 = 1 then
        match rd8 r with
        | none => none
        | some (v, r2) => (parseWireGo fuel r2).map fun fs => (tag / 8, WVal.i64 v) :: fs
      else if tag % 8 = 2 then
        match varintDec r with
        | none => none
        | some (len, r2) =>
          if len ≤ r2.length then
            (parseWireGo fuel (r2.drop len)).map fun fs =>
              (tag / 8, WVal.bytes (r2.take len)) :: fs
          else none
      else if tag % 8 = 5 then
        match rd4 r with
        | none => none
        | some (v, r2) => (parseWireGo fuel r2).map fun fs => (tag / 8, WVal.i32 v) :: fs
      else none

/-- Parse a byte sequence into its wire-level fields. -/
def parseWire (l : List Nat) : Option (List (Nat × WVal)) := parseWireGo l.length l

/-! ### UTF-8 validation

CPython's protobuf decoder raises `DecodeError` when a string field's bytes
are not valid UTF-8; this is the standard UTF-8 byte-sequence validator. -/

/-- Continuation byte test. -/
def isCont (b : Nat) : Bool := 128 ≤ b && b ≤ 191

/-- UTF-8 validation loop; the fuel bounds the number of decoded
characters. -/
def utf8ValidGo : Nat → List Nat → Bool
  | _, [] => true
  | 0, _ :: _ => false
  | fuel + 1, b :: r =>
    if b ≤ 127 then utf8ValidGo fuel r
    else if 194 ≤ b ∧ b ≤ 223 then
      match r with
      | c1 :: r2 => isCont c1 && utf8ValidGo fuel r2
      | [] => false
    else if b = 224 then
      match r with
      | c1 :: c2 :: r2 => (160 ≤ c1 && c1 ≤ 191) && isCont c2 && utf8ValidGo fuel r2
      | _ => false
    else if (225 ≤ b ∧ b ≤ 236) ∨ b = 238 ∨ b = 239 then
      match r with
      | c1 :: c2 :: r2 => isCont c1 && isCont c2 && utf8ValidGo fuel r2
      | _ => false
    else if b = 237 then
      match r with
      | c1 :: c2 :: r2 => (128 ≤ c1 && c1 ≤ 159) && isCont c2 && utf8ValidGo fuel r2
      | _ => false
    else if b = 240 then
      match r with
      | c1 :: c2 :: c3 :: r2 =>
        (144 ≤ c1 && c1 ≤ 191) && isCont c2 && isCont c3 && utf8ValidGo fuel r2
      | _ => false
    else if 241 ≤ b ∧ b ≤ 243 then
      match r with
      | c1 :: c2 :: c3 :: r2 => isCont c1 && isCont c2 && isCont c3 && utf8ValidGo fuel r2
      | _ => false
    else if b = 244 then
      match r with
      | c1 :: c2 :: c3 :: r2 =>
        (128 ≤ c1 && c1 ≤ 143) && isCont c2 && isCont c3 && utf8ValidGo fuel r2
      | _ => false
    else false

/-- UTF-8 validity of a byte sequence. -/
def utf8Valid (l : List Nat) : Bool := utf8ValidGo l.length l

/-! ### Message models

Records mirror the `meshtastic` protobuf messages the source tries.  Fields
not consulted by any validator or claim (for example `NodeInfo.snr`) are
parsed for their structural effect and discarded; this is noted per message.
A scalar field holds the decoded numeric value (32-bit-truncated for
`uint32`/`int32`/enums, as the CPython decoder does), and the validators
reproduce the proto3 `MessageToDict` presence discipline: a scalar is in the
dict only when it differs from its default. -/

/-- `meshtastic.protobuf.channel_pb2.ModuleSettings`:
`position_precision = 1` (uint32), `is_muted = 2` (bool). -/
structure ModuleSettingsP where
  position_precision : Nat := 0
  is_muted : Bool := false
deriving Repr, DecidableEq

/-- Interpretation of one wire field of a `ModuleSettings` message. -/
def moduleStep (m : ModuleSettingsP) (f : Nat × WVal) : ModuleSettingsP :=
  if f.1 = 1 then
    match f.2 with
    | .vint v => { m with position_precision := v % 4294967296 }
    | _ => m
  else if f.1 = 2 then
    match f.2 with
    | .vint v => { m with is_muted := v != 0 }
    | _ => m
  else m

/-- `channel_pb2.ChannelSettings`: `channel_num = 1` (uint32, deprecated),
`psk = 2` (bytes), `name = 3` (string), `id = 4` (fixed32, called `idfield`
here to avoid clashing with the identity function), `uplink_enabled = 5`,
`downlink_enabled = 6` (bools), `module_settings = 7` (message). -/
structure ChannelSettingsP where
  channel_num : Nat := 0
  psk : List Nat := []
  name : List Nat := []
  idfield : Nat := 0
  uplink_enabled : Bool := false
  downlink_enabled : Bool := false
  module_settings : Option ModuleSettingsP := none
deriving Repr, DecidableEq

/-- Interpretation of one wire field of a `ChannelSettings` message; a
repeated occurrence of the submessage field merges into the existing one, as
the protobuf decoder does. -/
def settingsStep (s : ChannelSettingsP) (f : Nat × WVal) : Option ChannelSettingsP :=
  if f.1 = 1 then
    match f.2 with
    | .vint v => some { s with channel_num := v % 4294967296 }
    | _ => some s
  else if f.1 = 2 then
    match f.2 with
    | .bytes b => some { s with psk := b }
    | _ => some s
  else if f.1 = 3 then
    match f.2 with
    | .bytes b => if utf8Valid b then some { s with name := b } else none
    | _ => some s
  else if f.1 = 4 then
    match f.2 with
    | .i32 v => some { s with idfield := v }
    | _ => some s
  else if f.1 = 5 then
    match f.2 with
    | .vint v => some { s with uplink_enabled := v != 0 }
    | _ => some s
  else if f.1 = 6 then
    match f.2 with
    | .vint v => some { s with downlink_enabled := v != 0 }
    | _ => some s
  else if f.1 = 7 then
    match f.2 with
    | .bytes b =>
      (parseWire b).map fun infs =>
        { s with module_settings := some (infs.foldl moduleStep (s.module_settings.getD {})) }
    | _ => some s
  else some s

/-- `ChannelSettings.ParseFromString`. -/
def parseChannelSettings (bs : List Nat) : Option ChannelSettingsP :=
  (parseWire bs).bind (List.foldlM settingsStep {})

/-- `config_pb2.Config.LoRaConfig`, fields 1-14.  Float fields hold the
IEEE-754 single bit pattern; repeated/later fields (numbers 103 and up) do
not occur in any input considered and are treated as unknown. -/
structure LoRaConfigP where
  use_preset : Bool := false
  modem_preset : Nat := 0
  bandwidth : Nat := 0
  spread_factor : Nat := 0
  coding_rate : Nat := 0
  frequency_offset : Nat := 0
  region : Nat := 0
  hop_limit : Nat := 0
  tx_enabled : Bool := false
  tx_power : Int := 0
  channel_num : Nat := 0
  override_duty_cycle : Bool := false
  sx126x_rx_boosted_gain : Bool := false
  override_frequency : Nat := 0
deriving Repr, DecidableEq

/-- Signed 32-bit value of a decoded varint (an `int32` field). -/
def int32Of (v : Nat) : Int :=
  if 2147483648 ≤ v % 4294967296 then (v % 4294967296 : Int) - 4294967296
  else (v % 4294967296 : Int)

/-- Interpretation of one wire field of a `LoRaConfig` message; every known
field is scalar, so interpretation cannot fail. -/
def loraStep (l : LoRaConfigP) (f : Nat × WVal) : LoRaConfigP :=
  if f.1 = 1 then match f.2 with | .vint v => { l with use_preset := v != 0 } | _ => l
  else if f.1 = 2 then match f.2 with | .vint v => { l with modem_preset := v % 4294967296 } | _ => l
  else if f.1 = 3 then match f.2 with | .vint v => { l with bandwidth := v % 4294967296 } | _ => l
  else if f.1 = 4 then match f.2 with | .vint v => { l with spread_factor := v % 4294967296 } | _ => l
  else if f.1 = 5 then match f.2 with | .vint v => { l with coding_rate := v % 4294967296 } | _ => l
  else if f.1 = 6 then match f.2 with | .i32 v => { l with frequency_offset := v } | _ => l
  else if f.1 = 7 then match f.2 with | .vint v => { l with region := v % 4294967296 } | _ => l
  else if f.1 = 8 then match f.2 with | .vint v => { l with hop_limit := v % 4294967296 } | _ => l
  else if f.1 = 9 then match f.2 with | .vint v => { l with tx_enabled := v != 0 } | _ => l
  else if f.1 = 10 then match f.2 with | .vint v => { l with tx_power := int32Of v } | _ => l
  else if f.1 = 11 then match f.2 with | .vint v => { l with channel_num := v % 4294967296 } | _ => l
  else if f.1 = 12 then match f.2 with | .vint v => { l with override_duty_cycle := v != 0 } | _ => l
  else if f.1 = 13 then match f.2 with | .vint v => { l with sx126x_rx_boosted_gain := v != 0 } | _ => l
  else if f.1 = 14 then match f.2 with | .i32 v => { l with override_frequency := v } | _ => l
  else l

/-- `apponly_pb2.ChannelSet`: `settings = 1` (repeated `ChannelSettings`),
`lora_config = 2` (message). -/
structure ChannelSetP where
  settings : List ChannelSettingsP := []
  lora_config : Option LoRaConfigP := none
deriving Repr, DecidableEq

/-- Interpretation of one wire field of a `ChannelSet` message; each
occurrence of the repeated field appends one entry. -/
def channelSetStep (cs : ChannelSetP) (f : Nat × WVal) : Option ChannelSetP :=
  if f.1 = 1 then
    match f.2 with
    | .bytes b => (parseChannelSettings b).map fun s => { cs with settings := cs.settings ++ [s] }
    | _ => some cs
  else if f.1 = 2 then
    match f.2 with
    | .bytes b =>
      (parseWire b).map fun lfs =>
        { cs with lora_config := some (lfs.foldl loraStep (cs.lora_config.getD {})) }
    | _ => some cs
  else some cs

/-- `ChannelSet.ParseFromString`. -/
def parseChannelSet (bs : List Nat) : Option ChannelSetP :=
  (parseWire bs).bind (List.foldlM channelSetStep {})

/-- `channel_pb2.Channel`: `index = 1` (int32), `settings = 2` (message),
`role = 3` (enum).  The `index` component additionally records wire
presence (`none` when the field never appeared), which the dict-presence
discipline below collapses back to the value test. -/
structure ChannelP where
  index : Option Nat := none
  settings : Option ChannelSettingsP := none
  role : Nat := 0
deriving Repr, DecidableEq

/-- Interpretation of one wire field of a `Channel` message. -/
def channelStep (c : ChannelP) (f : Nat × WVal) : Option ChannelP :=
  if f.1 = 1 then
    match f.2 with
    | .vint v => some { c with index := some (v % 4294967296) }
    | _ => some c
  else if f.1 = 2 then
    match f.2 with
    | .bytes b =>
      (parseWire b).bind fun infs =>
        (List.foldlM settingsStep (c.settings.getD {}) infs).map fun s =>
          { c with settings := some s }
    | _ => some c
  else if f.1 = 3 then
    match f.2 with
    | .vint v => some { c with role := v % 4294967296 }
    | _ => some c
  else some c

/-- `Channel.ParseFromString`. -/
def parseChannel (bs : List Nat) : Option ChannelP :=
  (parseWire bs).bind (List.foldlM channelStep {})

/-- `mesh_pb2.User`: `id = 1`, `long_name = 2`, `short_name = 3` (strings),
`macaddr = 4`, `public_key = 8` (bytes), `hw_model = 5`, `role = 7`
(enums), `is_licensed = 6` (bool).  The string field `id` is called `uid`
here. -/
structure UserP where
  uid : List Nat := []
  long_name : List Nat := []
  short_name : List Nat := []
  macaddr : List Nat := []
  hw_model : Nat := 0
  is_licensed : Bool := false
  role : Nat := 0
  public_key : List Nat := []
deriving Repr, DecidableEq

/-- Interpretation of one wire field of a `User` message. -/
def userStep (u : UserP) (f : Nat × WVal) : Option UserP :=
  if f.1 = 1 then
    match f.2 with
    | .bytes b => if utf8Valid b then some { u with uid := b } else none
    | _ => some u
  else if f.1 = 2 then
    match f.2 with
    | .bytes b => if utf8Valid b then some { u with long_name := b } else none
    | _ => some u
  else if f.1 = 3 then
    match f.2 with
    | .bytes b => if utf8Valid b then some { u with short_name := b } else none
    | _ => some u
  else if f.1 = 4 then
    match f.2 with
    | .bytes b => some { u with macaddr := b }
    | _ => some u
  else if f.1 = 5 then
    match f.2 with
    | .vint v => some { u with hw_model := v % 4294967296 }
    | _ => some u
  else if f.1 = 6 then
    match f.2 with
    | .vint v => some { u with is_licensed := v != 0 }
    | _ => some u
  else if f.1 = 7 then
    match f.2 with
    | .vint v => some { u with role := v % 4294967296 }
    | _ => some u
  else if f.1 = 8 then
    match f.2 with
    | .bytes b => some { u with public_key := b }
    | _ => some u
  else some u

/-- `User.ParseFromString`. -/
def parseUser (bs : List Nat) : Option UserP :=
  (parseWire bs).bind (List.foldlM userStep {})

/-- `mesh_pb2.Position`: `latitude_i = 1`, `longitude_i = 2` (sfixed32,
kept as raw bit patterns since only zero-ness is consulted), `altitude = 3`
(int32, kept as the raw varint).  Every other field of `Position` is
scalar; they are parsed and discarded. -/
structure PositionP where
  latitude_i : Nat := 0
  longitude_i : Nat := 0
  altitude : Nat := 0
deriving Repr, DecidableEq

/-- Interpretation of one wire field of a `Position` message. -/
def positionStep (p : PositionP) (f : Nat × WVal) : PositionP :=
  if f.1 = 1 then match f.2 with | .i32 v => { p with latitude_i := v } | _ => p
  else if f.1 = 2 then match f.2 with | .i32 v => { p with longitude_i := v } | _ => p
  else if f.1 = 3 then match f.2 with | .vint v => { p with altitude := v % 4294967296 } | _ => p
  else p

/-- `Position.ParseFromString`. -/
def parsePosition (bs : List Nat) : Option PositionP :=
  (parseWire bs).map fun fs => fs.foldl positionStep {}

/-- `mesh_pb2.NodeInfo`: `num = 1` (uint32), `user = 2`, `position = 3`,
`device_metrics = 6` (messages; `DeviceMetrics` has only scalar fields, so
only its structural parse matters and presence is recorded as a flag).
`snr = 4` (float), `last_heard = 5` (fixed32) and the remaining scalar
fields are parsed and discarded. -/
structure NodeInfoP where
  num : Nat := 0
  user : Option UserP := none
  position : Option PositionP := none
  device_metrics : Bool := false
deriving Repr, DecidableEq

/-- Interpretation of one wire field of a `NodeInfo` message. -/
def nodeStep (n : NodeInfoP) (f : Nat × WVal) : Option NodeInfoP :=
  if f.1 = 1 then
    match f.2 with
    | .vint v => some { n with num := v % 4294967296 }
    | _ => some n
  else if f.1 = 2 then
    match f.2 with
    | .bytes b =>
      (parseWire b).bind fun infs =>
        (List.foldlM userStep (n.user.getD {}) infs).map fun u => { n with user := some u }
    | _ => some n
  else if f.1 = 3 then
    match f.2 with
    | .bytes b =>
      (parseWire b).map fun infs =>
        { n with position := some (infs.foldl positionStep (n.position.getD {})) }
    | _ => some n
  else if f.1 = 6 then
    match f.2 with
    | .bytes b => (parseWire b).map fun _ => { n with device_metrics := true }
    | _ => some n
  else some n

/-- `NodeInfo.ParseFromString`. -/
def parseNodeInfo (bs : List Nat) : Option NodeInfoP :=
  (parseWire bs).bind (List.foldlM nodeStep {})

/-- `mesh_pb2.MyNodeInfo`: `my_node_num = 1`, `reboot_count = 8`,
`min_app_version = 11` (uint32), `device_id = 12` (bytes), `pio_env = 13`
(string); earlier field numbers were removed from the schema and are
unknown. -/
structure MyNodeInfoP where
  my_node_num : Nat := 0
  reboot_count : Nat := 0
  min_app_version : Nat := 0
  device_id : List Nat := []
  pio_env : List Nat := []
deriving Repr, DecidableEq

/-- Interpretation of one wire field of a `MyNodeInfo` message. -/
def myNodeStep (m : MyNodeInfoP) (f : Nat × WVal) : Option MyNodeInfoP :=
  if f.1 = 1 then
    match f.2 with
    | .vint v => some { m with my_node_num := v % 4294967296 }
    | _ => some m
  else if f.1 = 8 then
    match f.2 with
    | .vint v => some { m with reboot_count := v % 4294967296 }
    | _ => some m
  else if f.1 = 11 then
    match f.2 with
    | .vint v => some { m with min_app_version := v % 4294967296 }
    | _ => some m
  else if f.1 = 12 then
    match f.2 with
    | .bytes b => some { m with device_id := b }
    | _ => some m
  else if f.1 = 13 then
    match f.2 with
    | .bytes b => if utf8Valid b then some { m with pio_env := b } else none
    | _ => some m
  else some m

/-- `MyNodeInfo.ParseFromString`. -/
def parseMyNodeInfo (bs : List Nat) : Option MyNodeInfoP :=
  (parseWire bs).bind (List.foldlM myNodeStep {})

/-- `mesh_pb2.Data` has only scalar and bytes fields, so its parse is
purely structural. -/
def parseDataMsg (bs : List Nat) : Option Unit := (parseWire bs).map fun _ => ()

/-- Structural admissibility of one `MeshPacket` wire field: `decoded = 4`
is the only message-typed field (type `Data`); everything else is scalar or
bytes. -/
def meshPacketFieldOk (f : Nat × WVal) : Bool :=
  if f.1 = 4 then
    match f.2 with
    | .bytes b => (parseDataMsg b).isSome
    | _ => true
  else true

/-- `mesh_pb2.MeshPacket.ParseFromString`; the decoded field mapping is not
consulted by any claim, so only parse success is recorded. -/
def parseMeshPacket (bs : List Nat) : Option Unit :=
  (parseWire bs).bind fun fs => if fs.all meshPacketFieldOk then some () else none

/-! ### Plausibility validators

These mirror `MeshtasticDecoder._validate_*`.  The source applies them to
`MessageToDict` output, where a proto3 scalar appears only when different
from its default, a submessage appears (possibly as an empty dict, which is
falsy) when set, and a repeated field appears when non-empty; the
`xDictNonempty` helpers compute truthiness of such a dict. -/

/-- Truthiness of the `MessageToDict` image of a `ModuleSettings`. -/
def moduleDictNonempty (m : ModuleSettingsP) : Bool :=
  m.position_precision != 0 || m.is_muted

/-- Truthiness of the `MessageToDict` image of a `ChannelSettings`. -/
def settingsDictNonempty (s : ChannelSettingsP) : Bool :=
  s.channel_num != 0 || s.psk != [] || s.name != [] || s.idfield != 0 ||
  s.uplink_enabled || s.downlink_enabled || s.module_settings.isSome

/-- Truthiness of the `MessageToDict` image of a `LoRaConfig`; a float field
appears when its value differs from `0.0`, i.e. when the low 31 bits of its
pattern are not all zero. -/
def loraDictNonempty (l : LoRaConfigP) : Bool :=
  l.use_preset || l.modem_preset != 0 || l.bandwidth != 0 || l.spread_factor != 0 ||
  l.coding_rate != 0 || l.frequency_offset % 2147483648 != 0 || l.region != 0 ||
  l.hop_limit != 0 || l.tx_enabled || l.tx_power != 0 || l.channel_num != 0 ||
  l.override_duty_cycle || l.sx126x_rx_boosted_gain || l.override_frequency % 2147483648 != 0

/-- Source `_validate_channel_set_data`: `settings or channels or
lora_config` — `ChannelSet` has no `channels` field, so that key is never
present and the test reduces to the other two. -/
def validate_channel_set_data (cs : ChannelSetP) : Bool :=
  cs.settings != [] ||
  (match cs.lora_config with
   | some l => loraDictNonempty l
   | none => false)

/-- Source `_validate_channel_data`: `settings or role is not None or
index is not None`; under `MessageToDict` the `role`/`index` keys exist
exactly when the values are nonzero, and the `settings` dict is truthy
exactly when non-empty. -/
def validate_channel_data (c : ChannelP) : Bool :=
  (match c.settings with
   | some s => settingsDictNonempty s
   | none => false) ||
  c.role != 0 ||
  (match c.index with
   | some v => v != 0
   | none => false)

/-- Truthiness of the `MessageToDict` image of a `User`. -/
def userDictNonempty (u : UserP) : Bool :=
  u.uid != [] || u.long_name != [] || u.short_name != [] || u.macaddr != [] ||
  u.hw_model != 0 || u.is_licensed || u.role != 0 || u.public_key != []

/-- Source `_validate_node_data`: `num or user`. -/
def validate_node_data (n : NodeInfoP) : Bool :=
  n.num != 0 ||
  (match n.user with
   | some u => userDictNonempty u
   | none => false)

/-- Source `_validate_user_data`: `id or long_name or short_name`. -/
def validate_user_data (u : UserP) : Bool :=
  u.uid != [] || u.long_name != [] || u.short_name != []

/-- Source `_validate_position_data`: `latitude_i or longitude_i or
altitude`. -/
def validate_position_data (p : PositionP) : Bool :=
  p.latitude_i != 0 || p.longitude_i != 0 || p.altitude != 0

/-- Truthiness of the `MessageToDict` image of a `MyNodeInfo` (the source
checks `if my_node_dict:` directly). -/
def myNodeDictNonempty (m : MyNodeInfoP) : Bool :=
  m.my_node_num != 0 || m.reboot_count != 0 || m.min_app_version != 0 ||
  m.device_id != [] || m.pio_env != []

/-! ### Decode engine -/

/-- The candidate schemas, used both to drive the attempt order and as the
attempt-log entries (the source logs a string `'<Schema> failed: <error>'`;
only entry identity and order are consulted by the claims). -/
inductive Schema where
  | channelSet | channel | nodeInfo | user | position | myNodeInfo | meshPacket
deriving Repr, DecidableEq

/-- A successful match; each constructor corresponds to the key under which
the source returns the decoded mapping (`Config` for both channel shapes,
`Node`, `User`, `Position`, `MyNodeInfo`, `MeshPacket`). -/
inductive Matched where
  | config (cs : ChannelSetP)
  | configChannel (c : ChannelP)
  | node (n : NodeInfoP)
  | userInfo (u : UserP)
  | positionInfo (p : PositionP)
  | myNode (m : MyNodeInfoP)
  | meshPacket
deriving Repr, DecidableEq

/-- One candidate attempt: `none` means the binary parse raised (the source
appends one log entry and moves on); `some none` means the parse succeeded
but the plausibility predicate rejected it (the source moves on without
logging); `some (some m)` is a match. -/
def attemptOf : Schema → List Nat → Option (Option Matched)
  | .channelSet, bs =>
    (parseChannelSet bs).map fun cs =>
      if validate_channel_set_data cs then some (.config cs) else none
  | .channel, bs =>
    (parseChannel bs).map fun c =>
      if validate_channel_data c then some (.configChannel c) else none
  | .nodeInfo, bs =>
    (parseNodeInfo bs).map fun n =>
      if validate_node_data n then some (.node n) else none
  | .user, bs =>
    (parseUser bs).map fun u =>
      if validate_user_data u then some (.userInfo u) else none
  | .position, bs =>
    (parsePosition bs).map fun p =>
      if validate_position_data p then some (.positionInfo p) else none
  | .myNodeInfo, bs =>
    (parseMyNodeInfo bs).map fun m =>
      if myNodeDictNonempty m then some (.myNode m) else none
  | .meshPacket, bs => (parseMeshPacket bs).map fun _ => some .meshPacket

/-- Run candidates in order, accumulating the attempt log exactly as the
source's `decode_attempts` list is built. -/
def runAttempts (bs : List Nat) : List Schema → List Schema → Option Matched × List Schema
  | [], log => (none, log)
  | s :: rest, log =>
    match attemptOf s bs with
    | some (some m) => (some m, log)
    | some none => runAttempts bs rest log
    | none => runAttempts bs rest (log ++ [s])

/-- Source `_try_channel_decoders`. -/
def try_channel_decoders (bs : List Nat) (log : List Schema) : Option Matched × List Schema :=
  runAttempts bs [.channelSet, .channel] log

/-- Source `_try_node_decoders`. -/
def try_node_decoders (bs : List Nat) (log : List Schema) : Option Matched × List Schema :=
  runAttempts bs [.nodeInfo, .user, .position, .myNodeInfo] log

/-- The overall candidate order for a given classification. -/
def decodeOrder (nodeFirst : Bool) : List Schema :=
  (if nodeFirst then
    [.nodeInfo, .user, .position, .myNodeInfo, .channelSet, .channel]
  else
    [.channelSet, .channel, .nodeInfo, .user, .position, .myNodeInfo]) ++ [.meshPacket]

/-- The schema-trial portion of `decode_channel_url`: both families in the
order selected by the classification, then `MeshPacket` as a last resort. -/
def decodeBytes (nodeFirst : Bool) (bs : List Nat) : Option Matched × List Schema :=
  let fam :=
    if nodeFirst then
      match try_node_decoders bs [] with
      | (some m, log) => (some m, log)
      | (none, log) => try_channel_decoders bs log
    else
      match try_channel_decoders bs [] with
      | (some m, log) => (some m, log)
      | (none, log) => try_node_decoders bs log
  match fam with
  | (some m, log) => (some m, log)
  | (none, log) => runAttempts bs [.meshPacket] log

/-- The structured result of `decode_channel_url`:
`matched` is the `success=True` mapping carrying one schema key;
`unmatched` is the `success=False` mapping with `error='Unable to decode
protobuf data'`, the `decode_attempts` list, and the `raw_data` block
(whose remaining entries — lengths, hex — are derived from the fields
kept here); `topError` is the outer exception handler's mapping, which has
an `error` message but no `decode_attempts` key. -/
inductive DecodeOutcome where
  | matched (url : List Nat) (m : Matched)
  | unmatched (attempts : List Schema) (url encoded_data decoded_data : List Nat)
  | topError (msg : String) (url : List Nat)
deriving Repr, DecidableEq

/-- The byte string `"/v/"`, whose presence anywhere in the URL text is the
source's node-URL test (`'/v/' in url`). -/
def vSegBytes : List Nat := [47, 118, 47]

/-- Pipeline from an extracted payload string: base64url-decode, classify by
the `/v/` substring test on the whole URL, and run the engine. -/
def decode_payload (url encoded_data : List Nat) : DecodeOutcome :=
  match base64url_decode encoded_data with
  | none => .topError "Failed to decode base64 data" url
  | some bs =>
    match decodeBytes (hasSubstr vSegBytes url) bs with
    | (some m, _) => .matched url m
    | (none, log) => .unmatched log url encoded_data bs

/-- Source `MeshtasticDecoder.decode_channel_url`. -/
def decode_channel_url (url : List Nat) : DecodeOutcome :=
  match urlsplitPy url with
  | .error e => .topError e url
  | .ok parts =>
    if parts.fragment ≠ [] then decode_payload url parts.fragment
    else
      match firstCParam parts.query with
      | some v => decode_payload url v
      | none => .topError "No encoded channel data found in URL" url

/-! ### Encoder

Input records mirror the JSON dictionaries the source reads: an `Option`
field is `none` when the key is absent (for `position_precision`, also when
its value is JSON `null`, which the source treats identically).  Numeric
inputs are already coerced (`int(...)` / `float(...)` in the source);
assigning an out-of-range value to a protobuf field raises, which the outer
handler converts into an error result, modelled by the range checks below.
Float inputs are carried as IEEE-754 single bit patterns.  QR-code
generation is an external boundary and is not modelled; no claim mentions
it. -/

structure ModuleSpecIn where
  position_precision : Option Int := none
  is_muted : Option Bool := none
  muted : Option Bool := none
  mute : Option Bool := none
deriving Repr, DecidableEq

structure ChannelSpec where
  role : Option (List Nat) := none
  name : Option (List Nat) := none
  psk : Option (List Nat) := none
  uplink_enabled : Option Bool := none
  downlink_enabled : Option Bool := none
  module_settings : Option ModuleSpecIn := none
  index : Option Int := none
deriving Repr, DecidableEq

structure LoRaSpecIn where
  use_preset : Option Bool := none
  modem_preset : Option (List Nat) := none
  bandwidth : Option Int := none
  spread_factor : Option Int := none
  coding_rate : Option Int := none
  frequency_offset : Option Nat := none
  hop_limit : Option Int := none
  tx_enabled : Option Bool := none
  tx_power : Option Int := none
  channel_num : Option Int := none
  override_duty_cycle : Option Bool := none
  sx126x_rx_boosted_gain : Option Bool := none
  override_frequency : Option Nat := none
  region : Option (List Nat) := none
deriving Repr, DecidableEq

/-- Source `role_map.get(..., SECONDARY)` with
`DISABLED = 0`, `PRIMARY = 1`, `SECONDARY = 2`. -/
def role_map (r : List Nat) : Nat :=
  if r = strBytes "primary" then 1
  else if r = strBytes "secondary" then 2
  else if r = strBytes "disabled" then 0
  else 2

/-- Source PSK normalization (shared verbatim between `encode_channel_set`
and `encode_single_channel`): a `0x`-prefixed string is decoded as hex;
any other string is decoded as base64; if the attempted decoding raises,
the UTF-8 bytes truncated to 32 are used. -/
def resolve_psk (psk : List Nat) : List Nat :=
  if listStartsWith (strBytes "0x") psk then
    match fromhexPy (psk.drop 2) with
    | some bs => bs
    | none => psk.take 32
  else
    match b64decodePy psk with
    | some bs => bs
    | none => psk.take 32

/-- Module-settings construction: explicit `position_precision` (default 32
when the key is absent or null), mute flag from the first of the three
accepted aliases. -/
def build_module_settings : Option ModuleSpecIn → Except String ModuleSettingsP
  | none => .ok { position_precision := 32 }
  | some m =>
    let pp : Int := m.position_precision.getD 32
    if pp < 0 ∨ 4294967296 ≤ pp then
      .error "Failed to encode channel set: position_precision out of range"
    else
      .ok { position_precision := pp.toNat,
            is_muted := ((m.is_muted.orElse fun _ => m.muted).orElse fun _ => m.mute).getD false }

/-- Settings block of one channel spec (name passthrough when truthy, PSK
normalization when truthy, uplink/downlink only when present, module
settings always explicit). -/
def build_settings (cd : ChannelSpec) : Except String ChannelSettingsP :=
  match build_module_settings cd.module_settings with
  | .error e => .error e
  | .ok mod =>
    .ok { name := cd.name.getD []
          psk :=
            match cd.psk with
            | some p => if p ≠ [] then resolve_psk p else []
            | none => []
          uplink_enabled := cd.uplink_enabled.getD false
          downlink_enabled := cd.downlink_enabled.getD false
          module_settings := some mod }

/-- The `Channel` envelope built for position `i` of the list: the spec's
own `index` field is never read, the envelope index is the list position,
and the role is mapped with default `secondary`. -/
def build_channel (i : Nat) (cd : ChannelSpec) : Except String ChannelP :=
  match build_settings cd with
  | .error e => .error e
  | .ok s =>
    .ok { index := some i, settings := some s,
          role := role_map (cd.role.getD (strBytes "secondary")) }

/-- The encoder loop: per spec, build the envelope but append only its
settings block to the `ChannelSet` (the source's
`channel_set.settings.append(channel.settings)`). -/
def encode_loop : Nat → List ChannelSpec → Except String (List ChannelSettingsP)
  | _, [] => .ok []
  | i, cd :: rest =>
    match build_channel i cd with
    | .error e => .error e
    | .ok ch =>
      match encode_loop (i + 1) rest with
      | .error e => .error e
      | .ok tl => .ok (ch.settings.getD {} :: tl)

/-- Source `preset_map.get(..., 0)` including the legacy lowercase
aliases. -/
def preset_map (p : List Nat) : Nat :=
  if p = strBytes "LONG_FAST" then 0
  else if p = strBytes "LONG_SLOW" then 1
  else if p = strBytes "VERY_LONG_SLOW" then 2
  else if p = strBytes "MEDIUM_SLOW" then 3
  else if p = strBytes "MEDIUM_FAST" then 4
  else if p = strBytes "SHORT_SLOW" then 5
  else if p = strBytes "SHORT_FAST" then 6
  else if p = strBytes "LONG_MODERATE" then 7
  else if p = strBytes "SHORT_TURBO" then 8
  else if p = strBytes "long_fast" then 0
  else if p = strBytes "long_slow" then 1
  else if p = strBytes "very_long_slow" then 2
  else if p = strBytes "medium_slow" then 3
  else if p = strBytes "medium_fast" then 4
  else if p = strBytes "short_slow" then 5
  else if p = strBytes "short_fast" then 6
  else 0

/-- Source `region_map.get(..., 1)` (default `US` = 1). -/
def region_map (r : List Nat) : Nat :=
  if r = strBytes "US" then 1
  else if r = strBytes "EU_433" then 2
  else if r = strBytes "EU_868" then 3
  else if r = strBytes "CN" then 4
  else if r = strBytes "JP" then 5
  else if r = strBytes "ANZ" then 6
  else if r = strBytes "KR" then 7
  else if r = strBytes "TW" then 8
  else if r = strBytes "RU" then 9
  else if r = strBytes "IN" then 10
  else if r = strBytes "NZ_865" then 11
  else if r = strBytes "TH" then 12
  else if r = strBytes "LORA_24" then 13
  else if r = strBytes "UA_433" then 14
  else if r = strBytes "UA_868" then 15
  else 1

/-- Range-checked assignment to a `uint32` protobuf field (the protobuf
setter raises on out-of-range values; the field keeps its default when the
input key is absent). -/
def optU32 : Option Int → Except String Nat
  | none => .ok 0
  | some x =>
    if 0 ≤ x ∧ x < 4294967296 then .ok x.toNat
    else .error "Failed to encode channel set: value out of range for uint32 field"

/-- Range-checked assignment to an `int32` protobuf field. -/
def optI32 : Option Int → Except String Int
  | none => .ok 0
  | some x =>
    if -2147483648 ≤ x ∧ x < 2147483648 then .ok x
    else .error "Failed to encode channel set: value out of range for int32 field"

/-- Assignment to a `float` protobuf field, carried as a 32-bit pattern. -/
def optF32 : Option Nat → Except String Nat
  | none => .ok 0
  | some p =>
    if p < 4294967296 then .ok p
    else .error "Failed to encode channel set: bad float pattern"

/-- Construction of the optional LoRa block.  `none` also stands for a
falsy (empty) `lora_config` dictionary, which the source skips the same
way.  The checked fields are sequenced in the source's assignment order, so
the first failing coercion aborts the encode exactly as in the source; the
unchecked fields (bools and the name-to-code lookups, which are total)
commute with that sequencing. -/
def build_lora : Option LoRaSpecIn → Except String (Option LoRaConfigP)
  | none => .ok none
  | some ld => do
    let bandwidth ← optU32 ld.bandwidth
    let spread_factor ← optU32 ld.spread_factor
    let coding_rate ← optU32 ld.coding_rate
    let frequency_offset ← optF32 ld.frequency_offset
    let hop_limit ← optU32 ld.hop_limit
    let tx_power ← optI32 ld.tx_power
    let channel_num ← optU32 ld.channel_num
    let override_frequency ← optF32 ld.override_frequency
    return some {
      use_preset := ld.use_preset.getD false
      modem_preset := (ld.modem_preset.map preset_map).getD 0
      bandwidth := bandwidth
      spread_factor := spread_factor
      coding_rate := coding_rate
      frequency_offset := frequency_offset
      region := (ld.region.map region_map).getD 0
      hop_limit := hop_limit
      tx_enabled := ld.tx_enabled.getD false
      tx_power := tx_power
      channel_num := channel_num
      override_duty_cycle := ld.override_duty_cycle.getD false
      sx126x_rx_boosted_gain := ld.sx126x_rx_boosted_gain.getD false
      override_frequency := override_frequency }

/-! ### Message serialization

`SerializeToString` writes fields in ascending field-number order, omitting
proto3 no-presence scalars that equal their default and emitting set
submessage fields even when empty; repeated entries keep list order. -/

/-- Wire fields of a `ModuleSettings`. -/
def fieldsOfModule (m : ModuleSettingsP) : List (Nat × WVal) :=
  (if m.position_precision ≠ 0 then [(1, WVal.vint m.position_precision)] else []) ++
  (if m.is_muted then [(2, WVal.vint 1)] else [])

/-- `ModuleSettings.SerializeToString`. -/
def serModule (m : ModuleSettingsP) : List Nat := serFields (fieldsOfModule m)

/-- Wire fields of a `ChannelSettings`. -/
def fieldsOfSettings (s : ChannelSettingsP) : List (Nat × WVal) :=
  (if s.channel_num ≠ 0 then [(1, WVal.vint s.channel_num)] else []) ++
  (if s.psk ≠ [] then [(2, WVal.bytes s.psk)] else []) ++
  (if s.name ≠ [] then [(3, WVal.bytes s.name)] else []) ++
  (if s.idfield ≠ 0 then [(4, WVal.i32 s.idfield)] else []) ++
  (if s.uplink_enabled then [(5, WVal.vint 1)] else []) ++
  (if s.downlink_enabled then [(6, WVal.vint 1)] else []) ++
  (match s.module_settings with
   | some m => [(7, WVal.bytes (serModule m))]
   | none => [])

/-- `ChannelSettings.SerializeToString`. -/
def serSettings (s : ChannelSettingsP) : List Nat := serFields (fieldsOfSettings s)

/-- Wire fields of a `LoRaConfig`; a float field is emitted when its value
differs from `0.0`, i.e. when its pattern's low 31 bits are not all
zero; a negative `int32` is emitted as its 64-bit two's complement
varint. -/
def fieldsOfLora (l : LoRaConfigP) : List (Nat × WVal) :=
  (if l.use_preset then [(1, WVal.vint 1)] else []) ++
  (if l.modem_preset ≠ 0 then [(2, WVal.vint l.modem_preset)] else []) ++
  (if l.bandwidth ≠ 0 then [(3, WVal.vint l.bandwidth)] else []) ++
  (if l.spread_factor ≠ 0 then [(4, WVal.vint l.spread_factor)] else []) ++
  (if l.coding_rate ≠ 0 then [(5, WVal.vint l.coding_rate)] else []) ++
  (if l.frequency_offset % 2147483648 ≠ 0 then [(6, WVal.i32 l.frequency_offset)] else []) ++
  (if l.region ≠ 0 then [(7, WVal.vint l.region)] else []) ++
  (if l.hop_limit ≠ 0 then [(8, WVal.vint l.hop_limit)] else []) ++
  (if l.tx_enabled then [(9, WVal.vint 1)] else []) ++
  (if l.tx_power ≠ 0 then [(10, WVal.vint (l.tx_power % 18446744073709551616).toNat)] else []) ++
  (if l.channel_num ≠ 0 then [(11, WVal.vint l.channel_num)] else []) ++
  (if l.override_duty_cycle then [(12, WVal.vint 1)] else []) ++
  (if l.sx126x_rx_boosted_gain then [(13, WVal.vint 1)] else []) ++
  (if l.override_frequency % 2147483648 ≠ 0 then [(14, WVal.i32 l.override_frequency)] else [])

/-- Wire fields of a `ChannelSet`. -/
def fieldsOfChannelSet (cs : ChannelSetP) : List (Nat × WVal) :=
  cs.settings.map (fun s => (1, WVal.bytes (serSettings s))) ++
  (match cs.lora_config with
   | some l => [(2, WVal.bytes (serFields (fieldsOfLora l)))]
   | none => [])

/-- `ChannelSet.SerializeToString`. -/
def serChannelSet (cs : ChannelSetP) : List Nat := serFields (fieldsOfChannelSet cs)

/-- The structured result of `encode_channel_set`: on success the source
returns `success=True` with the URL, the QR artifact (external, not
modelled), `channels_count`, `encoded_size`, and — only when the round-trip
self-decode succeeded — the decoded mapping merged in (the `attached`
component); `err` is the exception handler's `success=False` mapping. -/
inductive EncodeResult where
  | ok (url : List Nat) (channels_count encoded_size : Nat) (attached : Option Matched)
  | err (msg : String)
deriving Repr, DecidableEq

/-- The fixed channel-family URL prefix used by the encoder, the bytes of
`"https://meshtastic.org/e/#"` (see `meshtasticUrlPrefix_eq`). -/
def meshtasticUrlPrefix : List Nat :=
  [104, 116, 116, 112, 115, 58, 47, 47, 109, 101, 115, 104, 116, 97, 115, 116,
   105, 99, 46, 111, 114, 103, 47, 101, 47, 35]

/-- Source `MeshtasticEncoder.encode_channel_set`. -/
def encode_channel_set (channels_data : List ChannelSpec)
    (lora_config_data : Option LoRaSpecIn) : EncodeResult :=
  match encode_loop 0 channels_data with
  | .error e => .err e
  | .ok settingsList =>
    match build_lora lora_config_data with
    | .error e => .err e
    | .ok loraP =>
      let protobuf_data := serChannelSet { settings := settingsList, lora_config := loraP }
      let url := meshtasticUrlPrefix ++ base64url_encode protobuf_data
      .ok url channels_data.length protobuf_data.length
        (match decode_channel_url url with
         | .matched _ m => some m
         | _ => none)

/-! ### Round-trip lemmas for the wire format -/

theorem varintEnc_small (n : Nat) (h : n < 128) : varintEnc n = [n] := by
  rw [varintEnc]; simp [h]

theorem varintEnc_ne_nil (n : Nat) : varintEnc n ≠ [] := by
  rw [varintEnc]; split <;> simp

theorem varintDecGo_enc : ∀ (fuel n : Nat) (rest : List Nat),
    n < 2 ^ (7 * fuel + 7) →
    varintDecGo (varintEnc n ++ rest) fuel = some (n, rest) := by
  intro fuel
  induction fuel with
  | zero =>
    intro n rest h
    have h128 : n < 128 := by
      have : (2 : Nat) ^ (7 * 0 + 7) = 128 := by norm_num
      omega
    rw [varintEnc_small n h128]
    simp [varintDecGo, h128]
  | succ k ih =>
    intro n rest h
    by_cases h128 : n < 128
    · rw [varintEnc_small n h128]; simp [varintDecGo, h128]
    · rw [varintEnc, dif_neg h128]
      have hdiv : n / 128 < 2 ^ (7 * k + 7) := by
        have hp : (2 : Nat) ^ (7 * (k + 1) + 7) = 2 ^ (7 * k + 7) * 128 := by
          rw [show 7 * (k + 1) + 7 = (7 * k + 7) + 7 by ring, pow_add]; norm_num
        rw [Nat.div_lt_iff_lt_mul (by norm_num)]
        omega
      have hrec := ih (n / 128) rest hdiv
      simp only [List.cons_append, varintDecGo, if_neg (by omega : ¬ n % 128 + 128 < 128),
        List.append_eq]
      rw [hrec]
      simp only [Option.map_some', Option.some.injEq, Prod.mk.injEq]
      exact ⟨by omega, trivial⟩

theorem varintDec_enc (n : Nat) (rest : List Nat) (h : n < 18446744073709551616) :
    varintDec (varintEnc n ++ rest) = some (n, rest) := by
  have h' : n < 2 ^ (7 * 9 + 7) := by
    have : (2 : Nat) ^ (7 * 9 + 7) = 1180591620717411303424 := by norm_num
    omega
  rw [varintDec, varintDecGo_enc 9 n rest h']
  simp [Nat.mod_eq_of_lt h]

theorem rd4_le4 (n : Nat) (rest : List Nat) (h : n < 4294967296) :
    rd4 (le4 n ++ rest) = some (n, rest) := by
  simp only [le4, List.cons_append, List.nil_append, rd4, Option.some.injEq, Prod.mk.injEq]
  exact ⟨by omega, trivial⟩

theorem rd8_le8 (n : Nat) (rest : List Nat) (h : n < 18446744073709551616) :
    rd8 (le8 n ++ rest) = some (n, rest) := by
  simp only [le8, le4, List.cons_append, List.nil_append, List.append_assoc, rd8,
    Option.some.injEq, Prod.mk.injEq]
  exact ⟨by omega, trivial⟩

/-- Well-formedness of a wire value for serialization (what the protobuf
runtime guarantees about the values it writes). -/
def WFVal : WVal → Prop
  | .vint n => n < 18446744073709551616
  | .i64 n => n < 18446744073709551616
  | .bytes bs => bs.length < 18446744073709551616
  | .i32 n => n < 4294967296

/-- Well-formedness of a tagged field. -/
def WFField (f : Nat × WVal) : Prop :=
  1 ≤ f.1 ∧ f.1 < 1152921504606846976 ∧ WFVal f.2

theorem parseWireGo_succ (fuel : Nat) (l : List Nat) (h : l ≠ []) :
    parseWireGo (fuel + 1) l =
      (match varintDec l with
       | none => none
       | some (tag, r) =>
         if tag / 8 = 0 then none
         else if tag % 8 = 0 then
           match varintDec r with
           | none => none
           | some (v, r2) => (parseWireGo fuel r2).map fun fs => (tag / 8, WVal.vint v) :: fs
         else if tag % 8 = 1 then
           match rd8 r with
           | none => none
           | some (v, r2) => (parseWireGo fuel r2).map fun fs => (tag / 8, WVal.i64 v) :: fs
         else if tag % 8 = 2 then
           match varintDec r with
           | none => none
           | some (len, r2) =>
             if len ≤ r2.length then
               (parseWireGo fuel (r2.drop len)).map fun fs =>
                 (tag / 8, WVal.bytes (r2.take len)) :: fs
             else none
         else if tag % 8 = 5 then
           match rd4 r with
           | none => none
           | some (v, r2) => (parseWireGo fuel r2).map fun fs => (tag / 8, WVal.i32 v) :: fs
         else none) := by
  cases l with
  | nil => exact absurd rfl h
  | cons a t => rfl

theorem serField_ne_nil (f : Nat × WVal) : serField f ≠ [] := by
  simp only [serField]
  intro hc
  exact varintEnc_ne_nil _ (List.append_eq_nil.mp hc).1

theorem length_le_serFields : ∀ fs : List (Nat × WVal), fs.length ≤ (serFields fs).length := by
  intro fs
  induction fs with
  | nil => simp [serFields]
  | cons f fs ih =>
    have h1 : 1 ≤ (serField f).length := by
      have := serField_ne_nil f
      cases hf : serField f with
      | nil => exact absurd hf this
      | cons a t => simp
    simp only [serFields, List.length_append, List.length_cons]
    omega

theorem wireTypeOf_lt (v : WVal) : wireTypeOf v < 8 := by
  cases v <;> simp [wireTypeOf]

theorem parseWireGo_serFields : ∀ (fs : List (Nat × WVal)) (fuel : Nat),
    (∀ f ∈ fs, WFField f) → fs.length ≤ fuel →
    parseWireGo fuel (serFields fs) = some fs := by
  intro fs
  induction fs with
  | nil => intro fuel _ _; cases fuel <;> rfl
  | cons f fs ih =>
    intro fuel hwf hlen
    obtain ⟨k, rfl⟩ : ∃ k, fuel = k + 1 := ⟨fuel - 1, by simp at hlen; omega⟩
    obtain ⟨fn, v⟩ := f
    obtain ⟨h1, h60, hv⟩ := hwf (fn, v) (by simp)
    have hwt : wireTypeOf v < 8 := wireTypeOf_lt v
    have htag : fn * 8 + wireTypeOf v < 18446744073709551616 := by
      simp only at h60; omega
    have hfs : ∀ g ∈ fs, WFField g := fun g hg => hwf g (by simp [hg])
    have hlen' : fs.length ≤ k := by simp at hlen; omega
    have hser : serFields ((fn, v) :: fs) =
        varintEnc (fn * 8 + wireTypeOf v) ++ (serWVal v ++ serFields fs) := by
      simp [serFields, serField, List.append_assoc]
    rw [hser, parseWireGo_succ k _ (by
      intro hc
      exact varintEnc_ne_nil _ (List.append_eq_nil.mp hc).1)]
    rw [varintDec_enc _ _ htag]
    have hdiv : (fn * 8 + wireTypeOf v) / 8 = fn := by omega
    have hmod : (fn * 8 + wireTypeOf v) % 8 = wireTypeOf v := by omega
    simp only [hdiv, hmod]
    rw [if_neg (by omega : ¬ fn = 0)]
    cases v with
    | vint n =>
      have hv' : n < 18446744073709551616 := by simpa [WFVal] using hv
      simp [wireTypeOf, serWVal, varintDec_enc n (serFields fs) hv', ih k hfs hlen']
    | i64 n =>
      have hv' : n < 18446744073709551616 := by simpa [WFVal] using hv
      simp [wireTypeOf, serWVal, rd8_le8 n (serFields fs) hv', ih k hfs hlen']
    | bytes bs =>
      have hv' : bs.length < 18446744073709551616 := by simpa [WFVal] using hv
      have hle : bs.length ≤ (bs ++ serFields fs).length := by simp
      simp [wireTypeOf, serWVal, List.append_assoc,
        varintDec_enc bs.length (bs ++ serFields fs) hv', hle,
        List.take_left, List.drop_left, ih k hfs hlen']
    | i32 n =>
      have hv' : n < 4294967296 := by simpa [WFVal] using hv
      simp [wireTypeOf, serWVal, rd4_le4 n (serFields fs) hv', ih k hfs hlen']

theorem parseWire_serFields (fs : List (Nat × WVal)) (hwf : ∀ f ∈ fs, WFField f) :
    parseWire (serFields fs) = some fs :=
  parseWireGo_serFields fs (serFields fs).length hwf (length_le_serFields fs)

/-! ### Round-trip lemmas for the base64url transform -/

theorem b64Val_toStd : ∀ v < 64, b64Val (toStdB64 (b64uChr v)) = some v := by decide

theorem toStd_uChr_ne61 : ∀ v < 64, toStdB64 (b64uChr v) ≠ 61 := by decide

theorem b64uChr_lt128 : ∀ v < 64, b64uChr v < 128 := by decide

theorem b64uChr_ne47 : ∀ v < 64, b64uChr v ≠ 47 := by decide

theorem base64url_encode_mem : ∀ (bs : List Nat), (∀ b ∈ bs, b < 256) →
    ∀ c ∈ base64url_encode bs, ∃ v, v < 64 ∧ c = b64uChr v
  | [] => by simp [base64url_encode]
  | [b1] => by
    intro h c hc
    have hb1 : b1 < 256 := h b1 (by simp)
    simp only [base64url_encode, List.mem_cons, List.not_mem_nil, or_false] at hc
    rcases hc with rfl | rfl
    · exact ⟨b1 / 4, by omega, rfl⟩
    · exact ⟨b1 % 4 * 16, by omega, rfl⟩
  | [b1, b2] => by
    intro h c hc
    have hb1 : b1 < 256 := h b1 (by simp)
    have hb2 : b2 < 256 := h b2 (by simp)
    simp only [base64url_encode, List.mem_cons, List.not_mem_nil, or_false] at hc
    rcases hc with rfl | rfl | rfl
    · exact ⟨b1 / 4, by omega, rfl⟩
    · exact ⟨b1 % 4 * 16 + b2 / 16, by omega, rfl⟩
    · exact ⟨b2 % 16 * 4, by omega, rfl⟩
  | b1 :: b2 :: b3 :: rest => by
    intro h c hc
    have hb1 : b1 < 256 := h b1 (by simp)
    have hb2 : b2 < 256 := h b2 (by simp)
    have hb3 : b3 < 256 := h b3 (by simp)
    have hr : ∀ b ∈ rest, b < 256 := fun b hb => h b (by simp [hb])
    simp only [base64url_encode, List.mem_cons, List.cons_append, List.mem_append] at hc
    rcases hc with rfl | rfl | rfl | rfl | hc
    · exact ⟨b1 / 4, by omega, rfl⟩
    · exact ⟨b1 % 4 * 16 + b2 / 16, by omega, rfl⟩
    · exact ⟨b2 % 16 * 4 + b3 / 64, by omega, rfl⟩
    · exact ⟨b3 % 64, by omega, rfl⟩
    · exact base64url_encode_mem rest hr c hc

theorem b64Go_enc : ∀ (bs : List Nat), (∀ b ∈ bs, b < 256) →
    b64Go ((base64url_encode bs).map toStdB64 ++
      List.replicate ((4 - (base64url_encode bs).length % 4) % 4) 61) [] 0 = some bs
  | [] => by intro h; simp [base64url_encode, b64Go]
  | [b1] => by
    intro h
    have hb1 : b1 < 256 := h b1 (by simp)
    have e1 := b64Val_toStd (b1 / 4) (by omega)
    have e2 := b64Val_toStd (b1 % 4 * 16) (by omega)
    have n1 := toStd_uChr_ne61 (b1 / 4) (by omega)
    have n2 := toStd_uChr_ne61 (b1 % 4 * 16) (by omega)
    simp [base64url_encode, b64Go, e1, e2, n1, n2, emitPartial]
    omega
  | [b1, b2] => by
    intro h
    have hb1 : b1 < 256 := h b1 (by simp)
    have hb2 : b2 < 256 := h b2 (by simp)
    have e1 := b64Val_toStd (b1 / 4) (by omega)
    have e2 := b64Val_toStd (b1 % 4 * 16 + b2 / 16) (by omega)
    have e3 := b64Val_toStd (b2 % 16 * 4) (by omega)
    have n1 := toStd_uChr_ne61 (b1 / 4) (by omega)
    have n2 := toStd_uChr_ne61 (b1 % 4 * 16 + b2 / 16) (by omega)
    have n3 := toStd_uChr_ne61 (b2 % 16 * 4) (by omega)
    simp [base64url_encode, b64Go, e1, e2, e3, n1, n2, n3, emitPartial]
    omega
  | b1 :: b2 :: b3 :: rest => by
    intro h
    have hb1 : b1 < 256 := h b1 (by simp)
    have hb2 : b2 < 256 := h b2 (by simp)
    have hb3 : b3 < 256 := h b3 (by simp)
    have hr : ∀ b ∈ rest, b < 256 := fun b hb => h b (by simp [hb])
    have ih := b64Go_enc rest hr
    have e1 := b64Val_toStd (b1 / 4) (by omega)
    have e2 := b64Val_toStd (b1 % 4 * 16 + b2 / 16) (by omega)
    have e3 := b64Val_toStd (b2 % 16 * 4 + b3 / 64) (by omega)
    have e4 := b64Val_toStd (b3 % 64) (by omega)
    have n1 := toStd_uChr_ne61 (b1 / 4) (by omega)
    have n2 := toStd_uChr_ne61 (b1 % 4 * 16 + b2 / 16) (by omega)
    have n3 := toStd_uChr_ne61 (b2 % 16 * 4 + b3 / 64) (by omega)
    have n4 := toStd_uChr_ne61 (b3 % 64) (by omega)
    have hlen : (4 - ((base64url_encode rest).length + 1 + 1 + 1 + 1) % 4) % 4
        = (4 - (base64url_encode rest).length % 4) % 4 := by omega
    simp only [base64url_encode, List.map_cons, List.cons_append, List.length_cons, hlen]
    simp [b64Go, e1, e2, e3, e4, n1, n2, n3, n4, ih]
    omega

theorem toStdB64_lt128 (c : Nat) (h : c < 128) : toStdB64 c < 128 := by
  unfold toStdB64; split_ifs <;> omega

theorem b64url_roundtrip (bs : List Nat) (h : ∀ b ∈ bs, b < 256) :
    base64url_decode (base64url_encode bs) = some bs := by
  have hmem := base64url_encode_mem bs h
  have hlt : ∀ c ∈ base64url_encode bs, c < 128 := by
    intro c hc
    obtain ⟨v, hv, rfl⟩ := hmem c hc
    exact b64uChr_lt128 v hv
  have hpad : (if (base64url_encode bs).length % 4 == 0 then base64url_encode bs
      else base64url_encode bs ++ List.replicate (4 - (base64url_encode bs).length % 4) 61)
      = base64url_encode bs ++
        List.replicate ((4 - (base64url_encode bs).length % 4) % 4) 61 := by
    by_cases h0 : (base64url_encode bs).length % 4 = 0
    · simp [h0]
    · rw [if_neg (by simp [h0])]
      have : (4 - (base64url_encode bs).length % 4) % 4
          = 4 - (base64url_encode bs).length % 4 := by omega
      rw [this]
  have hstep : base64url_decode (base64url_encode bs)
      = b64decodePy ((base64url_encode bs ++
          List.replicate ((4 - (base64url_encode bs).length % 4) % 4) 61).map toStdB64) := by
    rw [base64url_decode, hpad]
  rw [hstep, List.map_append]
  have hrep : (List.replicate ((4 - (base64url_encode bs).length % 4) % 4) 61).map toStdB64
      = List.replicate ((4 - (base64url_encode bs).length % 4) % 4) 61 := by
    simp [List.map_replicate, toStdB64]
  rw [hrep, b64decodePy]
  rw [if_neg (by
    simp only [List.any_eq_true, decide_eq_true_eq, not_exists, not_and, not_le]
    intro x hx
    rcases List.mem_append.mp hx with hx1 | hx2
    · obtain ⟨c, hc, rfl⟩ := List.mem_map.mp hx1
      exact toStdB64_lt128 c (hlt c hc)
    · have hx61 : x = 61 := List.eq_of_mem_replicate hx2
      omega)]
  exact b64Go_enc bs h

theorem noSub_of_no47 : ∀ ys : List Nat, (∀ c ∈ ys, c ≠ 47) →
    hasSubstr vSegBytes ys = false := by
  intro ys
  induction ys with
  | nil => intro _; rfl
  | cons y t ih =>
    intro h
    have hy : (47 : Nat) ≠ y := fun hc => h y (by simp) hc.symm
    have ht : hasSubstr [47, 118, 47] t = false := by
      simpa [vSegBytes] using ih fun c hc => h c (by simp [hc])
    simp [hasSubstr, vSegBytes, listStartsWith, hy, ht]

/-! ### Evaluation of the decoder on the encoder's URL shape -/

theorem meshtasticUrlPrefix_eq : meshtasticUrlPrefix = strBytes "https://meshtastic.org/e/#" := by
  decide

theorem urlsplit_std (enc : List Nat) :
    urlsplitPy (meshtasticUrlPrefix ++ enc) =
      .ok { scheme := [104, 116, 116, 112, 115],
            netloc := [109, 101, 115, 104, 116, 97, 115, 116, 105, 99, 46, 111, 114, 103],
            path := [47, 101, 47], query := [], fragment := enc } := rfl

theorem hasSubstr_std (enc : List Nat) (h : ∀ c ∈ enc, c ≠ 47) :
    hasSubstr vSegBytes (meshtasticUrlPrefix ++ enc) = false := by
  have henc : hasSubstr [47, 118, 47] enc = false := by
    simpa [vSegBytes] using noSub_of_no47 enc h
  simp [vSegBytes, meshtasticUrlPrefix, hasSubstr, listStartsWith, henc]

theorem decode_std_url (enc : List Nat) (h1 : enc ≠ []) (h47 : ∀ c ∈ enc, c ≠ 47) :
    decode_channel_url (meshtasticUrlPrefix ++ enc) =
      (match base64url_decode enc with
       | none => .topError "Failed to decode base64 data" (meshtasticUrlPrefix ++ enc)
       | some bs =>
         match decodeBytes false bs with
         | (some m, _) => .matched (meshtasticUrlPrefix ++ enc) m
         | (none, log) => .unmatched log (meshtasticUrlPrefix ++ enc) enc bs) := by
  rw [decode_channel_url, urlsplit_std]
  simp only
  rw [if_pos h1, decode_payload, hasSubstr_std enc h47]

/-! ### Attempt-log structure -/

theorem runAttempts_append (bs : List Nat) :
    ∀ (o1 o2 : List Schema) (log : List Schema),
    runAttempts bs (o1 ++ o2) log =
      (match runAttempts bs o1 log with
       | (some m, l) => (some m, l)
       | (none, l) => runAttempts bs o2 l) := by
  intro o1
  induction o1 with
  | nil => intro o2 log; rfl
  | cons s t ih =>
    intro o2 log
    simp only [List.cons_append, runAttempts]
    cases attemptOf s bs with
    | none => exact ih o2 (log ++ [s])
    | some r =>
      cases r with
      | none => exact ih o2 log
      | some m => rfl

theorem decodeBytes_eq_run (nodeFirst : Bool) (bs : List Nat) :
    decodeBytes nodeFirst bs = runAttempts bs (decodeOrder nodeFirst) [] := by
  cases nodeFirst
  · rw [show decodeOrder false = [Schema.channelSet, Schema.channel] ++
        ([Schema.nodeInfo, Schema.user, Schema.position, Schema.myNodeInfo] ++
          [Schema.meshPacket]) from rfl,
      runAttempts_append]
    simp only [decodeBytes, try_channel_decoders, try_node_decoders, Bool.false_eq_true,
      if_false]
    rcases h1 : runAttempts bs [Schema.channelSet, Schema.channel] [] with ⟨r1, l1⟩
    cases r1 with
    | some m => simp
    | none => simp only [runAttempts_append]
  · rw [show decodeOrder true = [Schema.nodeInfo, Schema.user, Schema.position,
        Schema.myNodeInfo] ++ ([Schema.channelSet, Schema.channel] ++
          [Schema.meshPacket]) from rfl,
      runAttempts_append]
    simp only [decodeBytes, try_channel_decoders, try_node_decoders, if_true]
    rcases h1 : runAttempts bs [Schema.nodeInfo, Schema.user, Schema.position,
      Schema.myNodeInfo] [] with ⟨r1, l1⟩
    cases r1 with
    | some m => simp
    | none => simp only [runAttempts_append]

theorem runAttempts_unmatched (bs : List Nat) :
    ∀ (order log r : List Schema), runAttempts bs order log = (none, r) →
    r = log ++ order.filter (fun s => (attemptOf s bs).isNone) := by
  intro order
  induction order with
  | nil => intro log r h; simp [runAttempts] at h; simp [h.symm]
  | cons s t ih =>
    intro log r h
    simp only [runAttempts] at h
    rcases ha : attemptOf s bs with _ | r1
    · rw [ha] at h
      have := ih (log ++ [s]) r h
      simp [List.filter_cons, ha, this]
    · rw [ha] at h
      cases r1 with
      | none =>
        have := ih log r h
        simp [List.filter_cons, ha, this]
      | some m => simp at h

/-! ### Claim theorems -/

/-- Helper for C2: on an unmatched decode the attempt log is exactly the
attempt order filtered to the candidates whose binary parse failed. -/
theorem decode_payload_unmatched (url enc : List Nat) (attempts : List Schema)
    (u e d : List Nat) (h : decode_payload url enc = .unmatched attempts u e d) :
    attempts = (decodeOrder (hasSubstr vSegBytes url)).filter
      (fun s => (attemptOf s d).isNone) := by
  rw [decode_payload] at h
  rcases hb : base64url_decode enc with _ | bs
  · rw [hb] at h; simp at h
  · rw [hb] at h
    simp only at h
    rcases hd : decodeBytes (hasSubstr vSegBytes url) bs with ⟨r, log⟩
    rw [hd] at h
    cases r with
    | some m => simp at h
    | none =>
      simp only [DecodeOutcome.unmatched.injEq] at h
      obtain ⟨h1, _, _, h4⟩ := h
      have hrun : runAttempts bs (decodeOrder (hasSubstr vSegBytes url)) [] = (none, log) := by
        rw [← decodeBytes_eq_run]; exact hd
      have hfil := runAttempts_unmatched bs (decodeOrder (hasSubstr vSegBytes url)) [] log hrun
      rw [← h1, ← h4]
      simpa using hfil

/-- Claim C2, counterexample: decoding the URL whose payload is the bytes
`[0x22, 0x01, 0xFF]` attempts all seven candidate schemas (six rejected by
their plausibility predicates without parse errors, `MeshPacket` failing to
parse), yet `decode_attempts` receives a single entry — not one entry per
attempted schema as the claim states. -/
theorem claim_c2_counterexample :
    decode_channel_url (strBytes "https://meshtastic.org/e/#IgH_") =
      .unmatched [.meshPacket] (strBytes "https://meshtastic.org/e/#IgH_")
        (strBytes "IgH_") [34, 1, 255] ∧
    (decodeOrder false).length = 7 := by
  constructor
  · decide
  · decide

/-- Claim C2, amended: only a candidate whose binary parse raises appends an
entry to the attempt log; a candidate that parses but fails its plausibility
predicate appends nothing.  Hence on a decode where no schema matches, the
returned `decode_attempts` list is the attempt order (dictated by
classification) filtered to the schemas whose parse failed. -/
theorem claim_c2_amended (url : List Nat) (attempts : List Schema) (u e d : List Nat)
    (h : decode_channel_url url = .unmatched attempts u e d) :
    attempts = (decodeOrder (hasSubstr vSegBytes url)).filter
      (fun s => (attemptOf s d).isNone) := by
  rw [decode_channel_url] at h
  rcases hu : urlsplitPy url with msg | parts
  · rw [hu] at h; simp at h
  · rw [hu] at h
    simp only at h
    by_cases hf : parts.fragment ≠ []
    · rw [if_pos hf] at h
      exact decode_payload_unmatched url parts.fragment attempts u e d h
    · rw [if_neg hf] at h
      rcases hc : firstCParam parts.query with _ | v
      · rw [hc] at h; simp at h
      · rw [hc] at h
        exact decode_payload_unmatched url v attempts u e d h

/-- Claim C2, witness for the amended theorem: on the payload
`[0x22, 0x01, 0xFF]` the unmatched decode logs exactly the parse-failing
schemas, namely only `MeshPacket`. -/
theorem claim_c2_amended_witness :
    decode_channel_url (strBytes "https://meshtastic.org/e/#IgH_") =
      .unmatched [.meshPacket] (strBytes "https://meshtastic.org/e/#IgH_")
        (strBytes "IgH_") [34, 1, 255] ∧
    [Schema.meshPacket] =
      (decodeOrder (hasSubstr vSegBytes (strBytes "https://meshtastic.org/e/#IgH_"))).filter
        (fun s => (attemptOf s [34, 1, 255]).isNone) :=
  ⟨by decide,
   claim_c2_amended (strBytes "https://meshtastic.org/e/#IgH_") [.meshPacket]
     (strBytes "https://meshtastic.org/e/#IgH_") (strBytes "IgH_") [34, 1, 255] (by decide)⟩

/-- Claim C3, counterexample: for the URL
`https://meshtastic.org/e/?a=/v/#CgASAwoBeA` the path is `/e/` (no `/v/`
segment), so by the claim the channel family would be tried first and the
payload — which matches `ChannelSet` — would decode as a channel config;
but the source tests `'/v/' in url` on the whole URL text, the query
text `a=/v/` makes that true, and the decode returns a node-family match
instead.  Text in the query string therefore does affect the family
order. -/
theorem claim_c3_counterexample :
    (urlsplitPy (strBytes "https://meshtastic.org/e/?a=/v/#CgASAwoBeA")).toOption.map
      (fun p => hasSubstr vSegBytes p.path) = some false ∧
    base64url_decode (strBytes "CgASAwoBeA") = some [10, 0, 18, 3, 10, 1, 120] ∧
    decode_channel_url (strBytes "https://meshtastic.org/e/?a=/v/#CgASAwoBeA") =
      .matched (strBytes "https://meshtastic.org/e/?a=/v/#CgASAwoBeA")
        (.node { num := 0, user := some { uid := [120] }, position := none,
                 device_metrics := false }) ∧
    (decodeBytes false [10, 0, 18, 3, 10, 1, 120]).1 =
      some (.config { settings := [{}], lora_config := some {} }) := by
  refine ⟨by decide, by decide, by decide, by decide⟩

/-- Claim C3, amended: the decode classification is the substring test
`'/v/' in url` over the whole URL text — node family first when it
succeeds, channel family first otherwise — so text in the query string or
fragment can change the family order. -/
theorem claim_c3_amended (url : List Nat) (parts : UrlParts) (enc bs : List Nat)
    (h1 : urlsplitPy url = .ok parts) (h2 : parts.fragment = enc) (h3 : enc ≠ [])
    (h4 : base64url_decode enc = some bs) :
    decode_channel_url url =
      (match decodeBytes (hasSubstr vSegBytes url) bs with
       | (some m, _) => .matched url m
       | (none, log) => .unmatched log url enc bs) := by
  subst h2
  rw [decode_channel_url, h1]
  simp only
  rw [if_pos h3, decode_payload, h4]

/-- Claim C3, witness for the amended theorem, at the counterexample URL:
the whole-URL substring test is true there, so the node family runs
first. -/
theorem claim_c3_amended_witness :
    hasSubstr vSegBytes (strBytes "https://meshtastic.org/e/?a=/v/#CgASAwoBeA") = true ∧
    decode_channel_url (strBytes "https://meshtastic.org/e/?a=/v/#CgASAwoBeA") =
      (match decodeBytes
          (hasSubstr vSegBytes (strBytes "https://meshtastic.org/e/?a=/v/#CgASAwoBeA"))
          [10, 0, 18, 3, 10, 1, 120] with
       | (some m, _) =>
         .matched (strBytes "https://meshtastic.org/e/?a=/v/#CgASAwoBeA") m
       | (none, log) =>
         .unmatched log (strBytes "https://meshtastic.org/e/?a=/v/#CgASAwoBeA")
           (strBytes "CgASAwoBeA") [10, 0, 18, 3, 10, 1, 120]) :=
  ⟨by decide,
   claim_c3_amended (strBytes "https://meshtastic.org/e/?a=/v/#CgASAwoBeA")
     { scheme := strBytes "https", netloc := strBytes "meshtastic.org",
       path := strBytes "/e/", query := strBytes "a=/v/",
       fragment := strBytes "CgASAwoBeA" }
     (strBytes "CgASAwoBeA") [10, 0, 18, 3, 10, 1, 120]
     (by decide) (by decide) (by decide) (by decide)⟩

/-- Spec-side PSK resolution, following the claim's words: try `0x`-hex
first, then base64, then raw UTF-8 truncated to 32 bytes, where the first
form that parses wins and every later form is skipped. -/
def resolve_psk_spec (psk : List Nat) : List Nat :=
  match (if listStartsWith (strBytes "0x") psk then fromhexPy (psk.drop 2) else none) with
  | some bs => bs
  | none =>
    match b64decodePy psk with
    | some bs => bs
    | none => psk.take 32

/-- Claim C4, counterexample: for the PSK string `"0xGG"` (a `0x`-prefixed
non-hex string that is valid base64), the claimed hex-then-base64-then-UTF-8
order would yield the base64 decoding `[0xD3, 0x11, 0x86]`, but the source
never tries base64 for a `0x`-prefixed string: when hex parsing raises it
falls directly to the UTF-8 fallback and yields the string's own bytes. -/
theorem claim_c4_counterexample :
    resolve_psk (strBytes "0xGG") = [48, 120, 71, 71] ∧
    resolve_psk_spec (strBytes "0xGG") = [211, 17, 134] ∧
    resolve_psk (strBytes "0xGG") ≠ resolve_psk_spec (strBytes "0xGG") := by
  refine ⟨by decide, by decide, by decide⟩

/-- Claim C4, amended: a `0x`-prefixed PSK is resolved as hex, falling back
(on a hex parse error) directly to its first 32 UTF-8 bytes, never to
base64; any other PSK is resolved as base64, falling back to its first 32
UTF-8 bytes.  The claim's concrete cases hold: `"0xAABBCC"` yields
`[0xAA, 0xBB, 0xCC]`, `"Zm9v"` yields its base64 decoding, and a
non-`0x`-prefixed string longer than 32 bytes whose base64 decoding raises
yields exactly its first 32 UTF-8 bytes. -/
theorem claim_c4_amended :
    resolve_psk (strBytes "0xAABBCC") = [170, 187, 204] ∧
    resolve_psk (strBytes "Zm9v") = [102, 111, 111] ∧
    (∀ psk : List Nat, listStartsWith (strBytes "0x") psk = true →
      resolve_psk psk = (fromhexPy (psk.drop 2)).getD (psk.take 32)) ∧
    (∀ psk : List Nat, listStartsWith (strBytes "0x") psk = false →
      b64decodePy psk = none → 32 < psk.length →
      resolve_psk psk = psk.take 32) := by
  refine ⟨by decide, by decide, ?_, ?_⟩
  · intro psk h
    rw [resolve_psk, if_pos h]
    rcases fromhexPy (psk.drop 2) <;> simp
  · intro psk h hb _
    rw [resolve_psk, if_neg (by simp [h]), hb]

/-- Claim C4, witness: the amended resolution at three concrete inputs —
`0x`-prefixed valid hex, `0x`-prefixed invalid hex, and a 37-character
string that is neither hex nor base64-decodable. -/
theorem claim_c4_amended_witness :
    resolve_psk (strBytes "0x0102") = (fromhexPy ((strBytes "0x0102").drop 2)).getD
      ((strBytes "0x0102").take 32) ∧
    resolve_psk (strBytes "abcdefghijklmnopqrstuvwxyzabcdefghijk") =
      (strBytes "abcdefghijklmnopqrstuvwxyzabcdefghijk").take 32 :=
  ⟨(claim_c4_amended.2.2.1 (strBytes "0x0102") (by decide)),
   (claim_c4_amended.2.2.2 (strBytes "abcdefghijklmnopqrstuvwxyzabcdefghijk")
     (by decide) (by decide) (by decide))⟩

/-- Claim C5, counterexample: the bytes `[0x08, 0x00]` explicitly encode
`index = 0` on the wire (the field is present), yet the decoded dict drops
zero-valued proto3 scalars, `data.get('index') is not None` is false, and
the plausibility predicate rejects the parse — explicit index zero does
not count as present, contrary to the claim. -/
theorem claim_c5_counterexample :
    parseChannel [8, 0] = some { index := some 0, settings := none, role := 0 } ∧
    validate_channel_data { index := some 0, settings := none, role := 0 } = false := by
  refine ⟨by decide, by decide⟩

/-- Claim C5, amended: the `Channel` plausibility predicate accepts a parse
exactly when the settings dict is present and non-empty, or the role is
nonzero, or the index is nonzero; an all-default parse is rejected and a
parse with index zero but a nonzero role is accepted, but explicit index
zero is indistinguishable from an absent index and is rejected. -/
theorem claim_c5_amended :
    (∀ c : ChannelP, validate_channel_data c = true ↔
      ((∃ s, c.settings = some s ∧ settingsDictNonempty s = true) ∨
       c.role ≠ 0 ∨ (∃ v, c.index = some v ∧ v ≠ 0))) ∧
    (parseChannel [] = some { } ∧ validate_channel_data { } = false) ∧
    (parseChannel [8, 0, 24, 1] = some { index := some 0, settings := none, role := 1 } ∧
     validate_channel_data { index := some 0, settings := none, role := 1 } = true) := by
  refine ⟨?_, ⟨by decide, by decide⟩, ⟨by decide, by decide⟩⟩
  intro c
  rcases c with ⟨i, s, r⟩
  rcases i with _ | v <;> rcases s with _ | s <;>
    simp [validate_channel_data] <;> tauto

/-- Claim C6: the decoder consults exactly one payload source — the
fragment when non-empty, else the first value of the `c` query parameter,
else it fails with the missing-encoded-data error; in particular a URL
with both a non-empty fragment and a `c` parameter decodes the fragment's
payload. -/
theorem claim_c6 (url : List Nat) (parts : UrlParts) (h : urlsplitPy url = .ok parts) :
    (parts.fragment ≠ [] → decode_channel_url url = decode_payload url parts.fragment) ∧
    (parts.fragment = [] → ∀ v, firstCParam parts.query = some v →
      decode_channel_url url = decode_payload url v) ∧
    (parts.fragment = [] → firstCParam parts.query = none →
      decode_channel_url url = .topError "No encoded channel data found in URL" url) := by
  refine ⟨?_, ?_, ?_⟩
  · intro hf
    rw [decode_channel_url, h]
    simp only
    rw [if_pos hf]
  · intro hf v hv
    rw [decode_channel_url, h]
    simp only
    rw [if_neg (by simp [hf]), hv]
  · intro hf hv
    rw [decode_channel_url, h]
    simp only
    rw [if_neg (by simp [hf]), hv]

/-- Claim C6, witness: a URL carrying both a non-empty fragment `QUFB` and
a `c` query parameter decodes the fragment's payload. -/
theorem claim_c6_witness :
    (strBytes "QUFB" : List Nat) ≠ [] ∧
    decode_channel_url (strBytes "https://x/e/?c=YWJj#QUFB") =
      decode_payload (strBytes "https://x/e/?c=YWJj#QUFB") (strBytes "QUFB") :=
  ⟨by decide,
   (claim_c6 (strBytes "https://x/e/?c=YWJj#QUFB")
     { scheme := strBytes "https", netloc := strBytes "x", path := strBytes "/e/",
       query := strBytes "c=YWJj", fragment := strBytes "QUFB" } (by decide)).1 (by decide)⟩

/-- Claim C8: top-level failures are returned as the structured
`success=False` mapping carrying only an error message (the `topError`
constructor, which has no `decode_attempts` component): a malformed URL
returns the raised message, a URL with empty fragment and no `c` parameter
returns the missing-encoded-data error before any schema is tried, and a
chosen payload whose base64 decoding raises returns the base64 error. -/
theorem claim_c8 (url : List Nat) :
    (∀ msg, urlsplitPy url = .error msg → decode_channel_url url = .topError msg url) ∧
    (∀ parts, urlsplitPy url = .ok parts → parts.fragment = [] →
      firstCParam parts.query = none →
      decode_channel_url url = .topError "No encoded channel data found in URL" url) ∧
    (∀ parts v, urlsplitPy url = .ok parts →
      (if parts.fragment ≠ [] then some parts.fragment else firstCParam parts.query) = some v →
      base64url_decode v = none →
      decode_channel_url url = .topError "Failed to decode base64 data" url) := by
  refine ⟨?_, ?_, ?_⟩
  · intro msg hmsg
    rw [decode_channel_url, hmsg]
  · intro parts hp hf hv
    rw [decode_channel_url, hp]
    simp only
    rw [if_neg (by simp [hf]), hv]
  · intro parts v hp hv hb
    rw [decode_channel_url, hp]
    simp only
    by_cases hf : parts.fragment ≠ []
    · rw [if_pos hf] at hv ⊢
      simp only [Option.some.injEq] at hv
      rw [hv, decode_payload, hb]
    · rw [if_neg hf] at hv ⊢
      rw [hv]
      simp only
      rw [decode_payload, hb]

/-- Claim C8, witness: the URL `https://meshtastic.org/e/#` (empty
fragment, no `c` parameter) yields the missing-encoded-data error with no
attempt log, and a URL whose fragment is not decodable base64 yields the
base64 error. -/
theorem claim_c8_witness :
    decode_channel_url (strBytes "https://meshtastic.org/e/#") =
      .topError "No encoded channel data found in URL" (strBytes "https://meshtastic.org/e/#") ∧
    decode_channel_url (strBytes "https://meshtastic.org/e/#A") =
      .topError "Failed to decode base64 data" (strBytes "https://meshtastic.org/e/#A") :=
  ⟨(claim_c8 (strBytes "https://meshtastic.org/e/#")).2.1
     { scheme := strBytes "https", netloc := strBytes "meshtastic.org",
       path := strBytes "/e/", query := [], fragment := [] }
     (by decide) (by decide) (by decide),
   (claim_c8 (strBytes "https://meshtastic.org/e/#A")).2.2
     { scheme := strBytes "https", netloc := strBytes "meshtastic.org",
       path := strBytes "/e/", query := [], fragment := strBytes "A" }
     (strBytes "A") (by decide) (by decide) (by decide)⟩

/-- Claim C7: base64url decoding inverts base64url encoding on every byte
sequence — encoding produces unpadded URL-safe base64, decoding re-pads,
substitutes the URL-safe characters and recovers the original bytes. -/
theorem claim_c7 (bs : List Nat) (h : ∀ b ∈ bs, b < 256) :
    base64url_decode (base64url_encode bs) = some bs :=
  b64url_roundtrip bs h

/-- Claim C7, witness: the round-trip at a concrete byte sequence
exercising all padding lengths and high bytes. -/
theorem claim_c7_witness :
    (∀ b ∈ [0, 1, 127, 128, 255, 77, 3], b < 256) ∧
    base64url_decode (base64url_encode [0, 1, 127, 128, 255, 77, 3]) =
      some [0, 1, 127, 128, 255, 77, 3] :=
  ⟨by decide, claim_c7 [0, 1, 127, 128, 255, 77, 3] (by decide)⟩

/-- Claim C10: encoding an empty channel list with no LoRa config
serializes an empty record and returns `success=True` with the URL
`https://meshtastic.org/e/#` (whose fragment is empty) and no merged
decoded config, while the decode engine fails on that URL with the
missing-encoded-data error — the failed self-check does not change the
encoder's reported success. -/
theorem claim_c10 :
    encode_channel_set [] none = .ok (strBytes "https://meshtastic.org/e/#") 0 0 none ∧
    (urlsplitPy (strBytes "https://meshtastic.org/e/#")).toOption.map (fun p => p.fragment) =
      some [] ∧
    decode_channel_url (strBytes "https://meshtastic.org/e/#") =
      .topError "No encoded channel data found in URL" (strBytes "https://meshtastic.org/e/#") := by
  refine ⟨by decide, by decide, by decide⟩

/-- Claim C1, counterexample: the encoder accepts the empty channel-spec
list and reports success, but the URL it emits cannot be decoded — the
self-decode fails with the missing-encoded-data error rather than
succeeding with zero decoded channels, so the round-trip property fails at
the empty list. -/
theorem claim_c1_counterexample :
    encode_channel_set [] none = .ok (strBytes "https://meshtastic.org/e/#") 0 0 none ∧
    decode_channel_url (strBytes "https://meshtastic.org/e/#") =
      .topError "No encoded channel data found in URL" (strBytes "https://meshtastic.org/e/#") := by
  refine ⟨by decide, by decide⟩

/-- Agreement of two channel specs on every field except `role` and
`index`. -/
def agree_except_role_index (a b : ChannelSpec) : Prop :=
  a.name = b.name ∧ a.psk = b.psk ∧ a.uplink_enabled = b.uplink_enabled ∧
  a.downlink_enabled = b.downlink_enabled ∧ a.module_settings = b.module_settings

theorem build_settings_congr (a b : ChannelSpec) (h : agree_except_role_index a b) :
    build_settings a = build_settings b := by
  obtain ⟨h1, h2, h3, h4, h5⟩ := h
  rw [build_settings, build_settings, h1, h2, h3, h4, h5]

theorem encode_loop_congr (l1 l2 : List ChannelSpec)
    (h : List.Forall₂ agree_except_role_index l1 l2) :
    ∀ i : Nat, encode_loop i l1 = encode_loop i l2 := by
  induction h with
  | nil => intro i; rfl
  | cons hab htail ih =>
    intro i
    have hs := build_settings_congr _ _ hab
    simp only [encode_loop, build_channel, hs]
    cases hbs : build_settings _ with
    | error e => rfl
    | ok s => rw [ih (i + 1)]

/-- Claim C9: the `role` and `index` fields of the input channel specs have
no effect on the result of `encode_channel_set` (the envelope index is
overwritten with the list position and the mapped role is computed, but
only each channel's settings block reaches the serialized `ChannelSet`), so
two spec lists differing only in roles and indices produce the same result
and in particular the same URL. -/
theorem claim_c9 (l1 l2 : List ChannelSpec) (lora : Option LoRaSpecIn)
    (h : List.Forall₂ agree_except_role_index l1 l2) :
    encode_channel_set l1 lora = encode_channel_set l2 lora := by
  rw [encode_channel_set, encode_channel_set, encode_loop_congr l1 l2 h 0,
    List.Forall₂.length_eq h]

/-- Claim C9, witness: two one-channel spec lists sharing the settings
fields but with different `role` and `index` values encode identically. -/
theorem claim_c9_witness :
    List.Forall₂ agree_except_role_index
      [{ name := some (strBytes "Alpha"), role := some (strBytes "primary"),
         index := some 5 }]
      [{ name := some (strBytes "Alpha"), role := some (strBytes "disabled"),
         index := some 9 }] ∧
    encode_channel_set
      [{ name := some (strBytes "Alpha"), role := some (strBytes "primary"),
         index := some 5 }] none =
    encode_channel_set
      [{ name := some (strBytes "Alpha"), role := some (strBytes "disabled"),
         index := some 9 }] none :=
  have hpair : agree_except_role_index
      { name := some (strBytes "Alpha"), role := some (strBytes "primary"), index := some 5 }
      { name := some (strBytes "Alpha"), role := some (strBytes "disabled"), index := some 9 } :=
    ⟨rfl, rfl, rfl, rfl, rfl⟩
  ⟨List.Forall₂.cons hpair List.Forall₂.nil,
   claim_c9 _ _ none (List.Forall₂.cons hpair List.Forall₂.nil)⟩

/-! ### Well-formedness of encoder outputs -/

theorem varintEnc_len_le : ∀ (k n : Nat), n < 2 ^ (7 * k + 7) → (varintEnc n).length ≤ k + 1 := by
  intro k
  induction k with
  | zero =>
    intro n h
    have h128 : n < 128 := by
      have : (2 : Nat) ^ (7 * 0 + 7) = 128 := by norm_num
      omega
    rw [varintEnc_small n h128]
    simp
  | succ k ih =>
    intro n h
    by_cases h128 : n < 128
    · rw [varintEnc_small n h128]; simp
    · rw [varintEnc, dif_neg h128]
      have hdiv : n / 128 < 2 ^ (7 * k + 7) := by
        have hp : (2 : Nat) ^ (7 * (k + 1) + 7) = 2 ^ (7 * k + 7) * 128 := by
          rw [show 7 * (k + 1) + 7 = (7 * k + 7) + 7 by ring, pow_add]; norm_num
        rw [Nat.div_lt_iff_lt_mul (by norm_num)]
        omega
      have := ih (n / 128) hdiv
      simp only [List.length_cons]
      omega

theorem varintEnc_len_le64 (n : Nat) (h : n < 18446744073709551616) :
    (varintEnc n).length ≤ 10 := by
  refine varintEnc_len_le 9 n ?_
  have : (2 : Nat) ^ (7 * 9 + 7) = 1180591620717411303424 := by norm_num
  omega

theorem varintEnc_len_le32 (n : Nat) (h : n < 4294967296) :
    (varintEnc n).length ≤ 5 := by
  refine varintEnc_len_le 4 n ?_
  have : (2 : Nat) ^ (7 * 4 + 7) = 34359738368 := by norm_num
  omega

theorem serFields_append : ∀ l1 l2 : List (Nat × WVal),
    serFields (l1 ++ l2) = serFields l1 ++ serFields l2 := by
  intro l1 l2
  induction l1 with
  | nil => rfl
  | cons f t ih => simp [serFields, ih]

theorem varintEnc_mem_lt (n : Nat) : ∀ b ∈ varintEnc n, b < 256 := by
  induction n using Nat.strong_induction_on with
  | _ n ih =>
    rw [varintEnc]
    split_ifs with h
    · intro b hb; simp at hb; omega
    · intro b hb
      simp only [List.mem_cons] at hb
      rcases hb with rfl | hb
      · omega
      · exact ih (n / 128) (by omega) b hb

theorem le4_mem_lt (n : Nat) : ∀ b ∈ le4 n, b < 256 := by
  intro b hb
  simp only [le4, List.mem_cons, List.not_mem_nil, or_false] at hb
  rcases hb with rfl | rfl | rfl | rfl <;> omega

theorem le8_mem_lt (n : Nat) : ∀ b ∈ le8 n, b < 256 := by
  intro b hb
  rw [le8] at hb
  rcases List.mem_append.mp hb with hb | hb <;> exact le4_mem_lt _ b hb

/-- Payload bytes of a wire value are in range (the only payload-carrying
value is `bytes`). -/
def valBytesLt (v : WVal) : Prop :=
  match v with
  | .bytes bs => ∀ b ∈ bs, b < 256
  | _ => True

theorem serWVal_mem_lt (v : WVal) (h : valBytesLt v) : ∀ b ∈ serWVal v, b < 256 := by
  cases v with
  | vint n => exact varintEnc_mem_lt n
  | i64 n => exact le8_mem_lt n
  | i32 n => exact le4_mem_lt n
  | bytes bs =>
    intro b hb
    rcases List.mem_append.mp hb with hb | hb
    · exact varintEnc_mem_lt _ b hb
    · exact h b hb

theorem serFields_mem_lt : ∀ (fs : List (Nat × WVal)), (∀ f ∈ fs, valBytesLt f.2) →
    ∀ b ∈ serFields fs, b < 256 := by
  intro fs
  induction fs with
  | nil => simp [serFields]
  | cons f t ih =>
    intro h b hb
    rw [serFields] at hb
    rcases List.mem_append.mp hb with hb | hb
    · rcases List.mem_append.mp hb with hb | hb
      · exact varintEnc_mem_lt _ b hb
      · exact serWVal_mem_lt f.2 (h f (by simp)) b hb
    · exact ih (fun g hg => h g (by simp [hg])) b hb

theorem mem_ite_block {c : Prop} [Decidable c] {x f : Nat × WVal}
    (h : f ∈ (if c then [x] else [])) : f = x := by
  split at h
  · simpa using h
  · simp at h

theorem len_ite_block {c : Prop} [Decidable c] (x : Nat × WVal) :
    (serFields (if c then [x] else [])).length ≤ (serField x).length := by
  split <;> simp [serFields]

/-- Membership characterization of `fieldsOfSettings`. -/
theorem mem_fieldsOfSettings {s : ChannelSettingsP} {f : Nat × WVal}
    (hf : f ∈ fieldsOfSettings s) :
    f = (1, .vint s.channel_num) ∨ f = (2, .bytes s.psk) ∨ f = (3, .bytes s.name) ∨
    f = (4, .i32 s.idfield) ∨ f = (5, .vint 1) ∨ f = (6, .vint 1) ∨
    ∃ m, s.module_settings = some m ∧ f = (7, .bytes (serModule m)) := by
  rw [fieldsOfSettings] at hf
  rcases List.mem_append.mp hf with hf | hg
  · rcases List.mem_append.mp hf with hf | hg
    · rcases List.mem_append.mp hf with hf | hg
      · rcases List.mem_append.mp hf with hf | hg
        · rcases List.mem_append.mp hf with hf | hg
          · rcases List.mem_append.mp hf with hf | hg
            · exact Or.inl (mem_ite_block hf)
            · exact Or.inr (Or.inl (mem_ite_block hg))
          · exact Or.inr (Or.inr (Or.inl (mem_ite_block hg)))
        · exact Or.inr (Or.inr (Or.inr (Or.inl (mem_ite_block hg))))
      · exact Or.inr (Or.inr (Or.inr (Or.inr (Or.inl (mem_ite_block hg)))))
    · exact Or.inr (Or.inr (Or.inr (Or.inr (Or.inr (Or.inl (mem_ite_block hg))))))
  · cases hm : s.module_settings with
    | none => rw [hm] at hg; simp at hg
    | some m =>
      rw [hm] at hg
      simp only [List.mem_cons, List.not_mem_nil, or_false] at hg
      exact Or.inr (Or.inr (Or.inr (Or.inr (Or.inr (Or.inr (⟨m, rfl, hg⟩))))))

/-- Membership characterization of `fieldsOfLora`: every field is one of
the fourteen scalar slots. -/
theorem mem_fieldsOfLora {l : LoRaConfigP} {f : Nat × WVal} (hf : f ∈ fieldsOfLora l) :
    f = (1, .vint 1) ∨ f = (2, .vint l.modem_preset) ∨ f = (3, .vint l.bandwidth) ∨
    f = (4, .vint l.spread_factor) ∨ f = (5, .vint l.coding_rate) ∨
    f = (6, .i32 l.frequency_offset) ∨ f = (7, .vint l.region) ∨
    f = (8, .vint l.hop_limit) ∨ f = (9, .vint 1) ∨
    f = (10, .vint (l.tx_power % 18446744073709551616).toNat) ∨
    f = (11, .vint l.channel_num) ∨ f = (12, .vint 1) ∨ f = (13, .vint 1) ∨
    f = (14, .i32 l.override_frequency) := by
  rw [fieldsOfLora] at hf
  rcases List.mem_append.mp hf with hf | hg
  · rcases List.mem_append.mp hf with hf | hg
    · rcases List.mem_append.mp hf with hf | hg
      · rcases List.mem_append.mp hf with hf | hg
        · rcases List.mem_append.mp hf with hf | hg
          · rcases List.mem_append.mp hf with hf | hg
            · rcases List.mem_append.mp hf with hf | hg
              · rcases List.mem_append.mp hf with hf | hg
                · rcases List.mem_append.mp hf with hf | hg
                  · rcases List.mem_append.mp hf with hf | hg
                    · rcases List.mem_append.mp hf with hf | hg
                      · rcases List.mem_append.mp hf with hf | hg
                        · rcases List.mem_append.mp hf with hf | hg
                          · exact Or.inl (mem_ite_block hf)
                          · exact Or.inr (Or.inl (mem_ite_block hg))
                        · exact Or.inr (Or.inr (Or.inl (mem_ite_block hg)))
                      · exact Or.inr (Or.inr (Or.inr (Or.inl (mem_ite_block hg))))
                    · exact Or.inr (Or.inr (Or.inr (Or.inr (Or.inl (mem_ite_block hg)))))
                  · exact Or.inr (Or.inr (Or.inr (Or.inr (Or.inr (Or.inl (mem_ite_block hg))))))
                · exact Or.inr (Or.inr (Or.inr (Or.inr (Or.inr (Or.inr (Or.inl (mem_ite_block hg)))))))
              · exact Or.inr (Or.inr (Or.inr (Or.inr (Or.inr (Or.inr (Or.inr (Or.inl (mem_ite_block hg))))))))
            · exact Or.inr (Or.inr (Or.inr (Or.inr (Or.inr (Or.inr (Or.inr (Or.inr (Or.inl (mem_ite_block hg)))))))))
          · exact Or.inr (Or.inr (Or.inr (Or.inr (Or.inr (Or.inr (Or.inr (Or.inr (Or.inr (Or.inl (mem_ite_block hg))))))))))
        · exact Or.inr (Or.inr (Or.inr (Or.inr (Or.inr (Or.inr (Or.inr (Or.inr (Or.inr (Or.inr (Or.inl (mem_ite_block hg)))))))))))
      · exact Or.inr (Or.inr (Or.inr (Or.inr (Or.inr (Or.inr (Or.inr (Or.inr (Or.inr (Or.inr (Or.inr (Or.inl (mem_ite_block hg))))))))))))
    · exact Or.inr (Or.inr (Or.inr (Or.inr (Or.inr (Or.inr (Or.inr (Or.inr (Or.inr (Or.inr (Or.inr (Or.inr (Or.inl (mem_ite_block hg)))))))))))))
  · exact Or.inr (Or.inr (Or.inr (Or.inr (Or.inr (Or.inr (Or.inr (Or.inr (Or.inr (Or.inr (Or.inr (Or.inr (Or.inr (mem_ite_block hg)))))))))))))
theorem WF_fieldsOfModule (m : ModuleSettingsP) (h : m.position_precision < 4294967296) :
    ∀ f ∈ fieldsOfModule m, WFField f := by
  intro f hf
  simp only [fieldsOfModule] at hf
  rcases List.mem_append.mp hf with hf | hf <;> rw [mem_ite_block hf] <;>
    exact ⟨by norm_num, by norm_num, by simp only [WFVal]; omega⟩

theorem txp_emod_lt (x : Int) : (x % 18446744073709551616).toNat < 18446744073709551616 := by
  have h1 : 0 ≤ x % 18446744073709551616 := Int.emod_nonneg x (by norm_num)
  have h2 : x % 18446744073709551616 < 18446744073709551616 :=
    Int.emod_lt_of_pos x (by norm_num)
  omega

/-- Bounds the protobuf runtime guarantees for a stored `LoRaConfig`. -/
def loraBounds (l : LoRaConfigP) : Prop :=
  l.modem_preset < 18446744073709551616 ∧ l.bandwidth < 18446744073709551616 ∧
  l.spread_factor < 18446744073709551616 ∧ l.coding_rate < 18446744073709551616 ∧
  l.frequency_offset < 4294967296 ∧ l.region < 18446744073709551616 ∧
  l.hop_limit < 18446744073709551616 ∧ l.channel_num < 18446744073709551616 ∧
  l.override_frequency < 4294967296

theorem WF_fieldsOfLora (l : LoRaConfigP) (h : loraBounds l) :
    ∀ f ∈ fieldsOfLora l, WFField f := by
  obtain ⟨h1, h2, h3, h4, h5, h6, h7, h8, h9⟩ := h
  intro f hf
  rcases mem_fieldsOfLora hf with rfl | rfl | rfl | rfl | rfl | rfl | rfl | rfl | rfl |
    rfl | rfl | rfl | rfl | rfl <;>
    refine ⟨by norm_num, by norm_num, ?_⟩ <;> simp only [WFVal] <;> omega

/-- Properties of a `ChannelSettings` value as the encoder builds it. -/
def builtSettingsWF (s : ChannelSettingsP) : Prop :=
  utf8Valid s.name = true ∧
  s.name.length < 1048576 ∧
  s.psk.length < 1048608 ∧
  (∀ b ∈ s.name, b < 256) ∧
  (∀ b ∈ s.psk, b < 256) ∧
  s.channel_num = 0 ∧
  s.idfield = 0 ∧
  ∃ m, s.module_settings = some m ∧ m.position_precision < 4294967296

theorem serModule_len (m : ModuleSettingsP) (h : m.position_precision < 4294967296) :
    (serModule m).length ≤ 13 := by
  have hv : (varintEnc m.position_precision).length ≤ 5 := varintEnc_len_le32 _ h
  rw [serModule, fieldsOfModule, serFields_append]
  have b1 : (serFields (if m.position_precision ≠ 0
      then [(1, WVal.vint m.position_precision)] else [])).length ≤ 6 := by
    refine le_trans (len_ite_block _) ?_
    simp only [serField, serWVal, wireTypeOf, List.length_append]
    rw [varintEnc_small 8 (by norm_num)]
    simp only [List.length_cons, List.length_nil]
    omega
  have b2 : (serFields (if m.is_muted then [(2, WVal.vint 1)] else [])).length ≤ 2 := by
    refine le_trans (len_ite_block _) ?_
    simp [serField, serWVal, wireTypeOf, varintEnc_small 16 (by norm_num),
      varintEnc_small 1 (by norm_num)]
  simp only [List.length_append]
  omega

theorem WF_fieldsOfSettings (s : ChannelSettingsP) (h : builtSettingsWF s) :
    ∀ f ∈ fieldsOfSettings s, WFField f := by
  obtain ⟨_, hnl, hpl, _, _, hcn, hid, m0, hm0, hm0lt⟩ := h
  intro f hf
  rcases mem_fieldsOfSettings hf with rfl | rfl | rfl | rfl | rfl | rfl | ⟨m, hm, rfl⟩ <;>
    refine ⟨by norm_num, by norm_num, ?_⟩ <;> simp only [WFVal]
  · omega
  · omega
  · omega
  · rw [hid]; norm_num
  · norm_num
  · norm_num
  · rw [hm0] at hm
    cases hm
    have := serModule_len m0 hm0lt
    omega

theorem serSettings_len (s : ChannelSettingsP) (h : builtSettingsWF s) :
    (serSettings s).length ≤ s.psk.length + s.name.length + 60 := by
  obtain ⟨_, hnl, hpl, _, _, hcn, hid, m0, hm0, hm0lt⟩ := h
  rw [serSettings, fieldsOfSettings, hcn, hid, hm0]
  simp only [serFields_append, List.length_append]
  have b1 : (serFields (if (0 : Nat) ≠ 0 then [(1, WVal.vint 0)] else [])).length = 0 := by
    simp [serFields]
  have b4 : (serFields (if (0 : Nat) ≠ 0 then [(4, WVal.i32 0)] else [])).length = 0 := by
    simp [serFields]
  have b2 : (serFields (if s.psk ≠ [] then [(2, WVal.bytes s.psk)] else [])).length ≤
      6 + s.psk.length := by
    refine le_trans (len_ite_block _) ?_
    simp only [serField, serWVal, wireTypeOf, List.length_append]
    rw [varintEnc_small 18 (by norm_num)]
    have := varintEnc_len_le32 s.psk.length (by omega)
    simp only [List.length_cons, List.length_nil]
    omega
  have b3 : (serFields (if s.name ≠ [] then [(3, WVal.bytes s.name)] else [])).length ≤
      6 + s.name.length := by
    refine le_trans (len_ite_block _) ?_
    simp only [serField, serWVal, wireTypeOf, List.length_append]
    rw [varintEnc_small 26 (by norm_num)]
    have := varintEnc_len_le32 s.name.length (by omega)
    simp only [List.length_cons, List.length_nil]
    omega
  have b5 : (serFields (if s.uplink_enabled then [(5, WVal.vint 1)] else [])).length ≤ 2 := by
    refine le_trans (len_ite_block _) ?_
    simp [serField, serWVal, wireTypeOf, varintEnc_small 40 (by norm_num),
      varintEnc_small 1 (by norm_num)]
  have b6 : (serFields (if s.downlink_enabled then [(6, WVal.vint 1)] else [])).length ≤ 2 := by
    refine le_trans (len_ite_block _) ?_
    simp [serField, serWVal, wireTypeOf, varintEnc_small 48 (by norm_num),
      varintEnc_small 1 (by norm_num)]
  have b7 : (serFields [(7, WVal.bytes (serModule m0))]).length ≤ 15 := by
    have hml := serModule_len m0 hm0lt
    simp only [serFields, serField, serWVal, wireTypeOf, List.append_nil,
      List.length_append]
    rw [varintEnc_small 58 (by norm_num), varintEnc_small (serModule m0).length (by omega)]
    simp only [List.length_cons, List.length_nil]
    omega
  omega


theorem serLora_len (l : LoRaConfigP) (h : loraBounds l) :
    (serFields (fieldsOfLora l)).length ≤ 200 := by
  obtain ⟨h1, h2, h3, h4, h5, h6, h7, h8, h9⟩ := h
  rw [fieldsOfLora]
  simp only [serFields_append, List.length_append]
  have b1 : (serFields (if l.use_preset then [(1, WVal.vint 1)] else [])).length ≤ 2 := by
    refine le_trans (len_ite_block _) ?_
    simp [serField, serWVal, wireTypeOf, varintEnc_small 8 (by norm_num),
      varintEnc_small 1 (by norm_num)]
  have b2 : (serFields (if l.modem_preset ≠ 0 then [(2, WVal.vint l.modem_preset)] else [])).length ≤ 11 := by
    refine le_trans (len_ite_block _) ?_
    simp only [serField, serWVal, wireTypeOf, List.length_append]
    rw [varintEnc_small 16 (by norm_num)]
    have := varintEnc_len_le64 _ h1
    simp only [List.length_cons, List.length_nil]
    omega
  have b3 : (serFields (if l.bandwidth ≠ 0 then [(3, WVal.vint l.bandwidth)] else [])).length ≤ 11 := by
    refine le_trans (len_ite_block _) ?_
    simp only [serField, serWVal, wireTypeOf, List.length_append]
    rw [varintEnc_small 24 (by norm_num)]
    have := varintEnc_len_le64 _ h2
    simp only [List.length_cons, List.length_nil]
    omega
  have b4 : (serFields (if l.spread_factor ≠ 0 then [(4, WVal.vint l.spread_factor)] else [])).length ≤ 11 := by
    refine le_trans (len_ite_block _) ?_
    simp only [serField, serWVal, wireTypeOf, List.length_append]
    rw [varintEnc_small 32 (by norm_num)]
    have := varintEnc_len_le64 _ h3
    simp only [List.length_cons, List.length_nil]
    omega
  have b5 : (serFields (if l.coding_rate ≠ 0 then [(5, WVal.vint l.coding_rate)] else [])).length ≤ 11 := by
    refine le_trans (len_ite_block _) ?_
    simp only [serField, serWVal, wireTypeOf, List.length_append]
    rw [varintEnc_small 40 (by norm_num)]
    have := varintEnc_len_le64 _ h4
    simp only [List.length_cons, List.length_nil]
    omega
  have b6 : (serFields (if l.frequency_offset % 2147483648 ≠ 0 then [(6, WVal.i32 l.frequency_offset)] else [])).length ≤ 5 := by
    refine le_trans (len_ite_block _) ?_
    simp [serField, serWVal, wireTypeOf, le4, varintEnc_small 53 (by norm_num)]
  have b7 : (serFields (if l.region ≠ 0 then [(7, WVal.vint l.region)] else [])).length ≤ 11 := by
    refine le_trans (len_ite_block _) ?_
    simp only [serField, serWVal, wireTypeOf, List.length_append]
    rw [varintEnc_small 56 (by norm_num)]
    have := varintEnc_len_le64 _ h6
    simp only [List.length_cons, List.length_nil]
    omega
  have b8 : (serFields (if l.hop_limit ≠ 0 then [(8, WVal.vint l.hop_limit)] else [])).length ≤ 11 := by
    refine le_trans (len_ite_block _) ?_
    simp only [serField, serWVal, wireTypeOf, List.length_append]
    rw [varintEnc_small 64 (by norm_num)]
    have := varintEnc_len_le64 _ h7
    simp only [List.length_cons, List.length_nil]
    omega
  have b9 : (serFields (if l.tx_enabled then [(9, WVal.vint 1)] else [])).length ≤ 2 := by
    refine le_trans (len_ite_block _) ?_
    simp [serField, serWVal, wireTypeOf, varintEnc_small 72 (by norm_num),
      varintEnc_small 1 (by norm_num)]
  have b10 : (serFields (if l.tx_power ≠ 0 then [(10, WVal.vint (l.tx_power % 18446744073709551616).toNat)] else [])).length ≤ 11 := by
    refine le_trans (len_ite_block _) ?_
    simp only [serField, serWVal, wireTypeOf, List.length_append]
    rw [varintEnc_small 80 (by norm_num)]
    have := varintEnc_len_le64 _ (txp_emod_lt l.tx_power)
    simp only [List.length_cons, List.length_nil]
    omega
  have b11 : (serFields (if l.channel_num ≠ 0 then [(11, WVal.vint l.channel_num)] else [])).length ≤ 11 := by
    refine le_trans (len_ite_block _) ?_
    simp only [serField, serWVal, wireTypeOf, List.length_append]
    rw [varintEnc_small 88 (by norm_num)]
    have := varintEnc_len_le64 _ h8
    simp only [List.length_cons, List.length_nil]
    omega
  have b12 : (serFields (if l.override_duty_cycle then [(12, WVal.vint 1)] else [])).length ≤ 2 := by
    refine le_trans (len_ite_block _) ?_
    simp [serField, serWVal, wireTypeOf, varintEnc_small 96 (by norm_num),
      varintEnc_small 1 (by norm_num)]
  have b13 : (serFields (if l.sx126x_rx_boosted_gain then [(13, WVal.vint 1)] else [])).length ≤ 2 := by
    refine le_trans (len_ite_block _) ?_
    simp [serField, serWVal, wireTypeOf, varintEnc_small 104 (by norm_num),
      varintEnc_small 1 (by norm_num)]
  have b14 : (serFields (if l.override_frequency % 2147483648 ≠ 0 then [(14, WVal.i32 l.override_frequency)] else [])).length ≤ 5 := by
    refine le_trans (len_ite_block _) ?_
    simp [serField, serWVal, wireTypeOf, le4, varintEnc_small 117 (by norm_num)]
  omega

/-! ### Totality and bounds along the encoder pipeline -/

theorem list_foldlM_isSome {α β : Type} (step : β → α → Option β) :
    ∀ (l : List α) (init : β), (∀ a ∈ l, ∀ b, (step b a).isSome = true) →
    ∃ r, List.foldlM step init l = some r := by
  intro l
  induction l with
  | nil => intro init _; exact ⟨init, by rw [List.foldlM_nil]; rfl⟩
  | cons a t ih =>
    intro init h
    have h1 := h a (by simp) init
    rcases ha : step init a with _ | b
    · rw [ha] at h1; simp at h1
    · obtain ⟨r, hr⟩ := ih b (fun x hx c => h x (by simp [hx]) c)
      refine ⟨r, ?_⟩
      rw [List.foldlM_cons, ha]
      exact hr

theorem b64Val_lt64 (c v : Nat) (h : b64Val c = some v) : v < 64 := by
  rw [b64Val] at h
  split_ifs at h <;> simp_all <;> omega

theorem emitPartial_bounds (acc : List Nat) (h : ∀ v ∈ acc, v < 64) :
    (∀ b ∈ emitPartial acc, b < 256) ∧ (emitPartial acc).length ≤ acc.length := by
  match acc with
  | [] => exact ⟨by simp [emitPartial], by simp [emitPartial]⟩
  | [a] => exact ⟨by simp [emitPartial], by simp [emitPartial]⟩
  | [a, b] =>
    have ha := h a (by simp)
    have hb := h b (by simp)
    refine ⟨?_, by simp [emitPartial]⟩
    intro x hx
    simp only [emitPartial, List.mem_singleton] at hx
    omega
  | [a, b, c] =>
    have ha := h a (by simp)
    have hb := h b (by simp)
    have hc := h c (by simp)
    refine ⟨?_, by simp [emitPartial]⟩
    intro x hx
    simp only [emitPartial, List.mem_cons, List.not_mem_nil, or_false] at hx
    rcases hx with rfl | rfl <;> omega
  | a :: b :: c :: d :: t => exact ⟨by simp [emitPartial], by simp [emitPartial]⟩

theorem b64Go_bounds : ∀ (l acc : List Nat) (pads : Nat) (out : List Nat),
    (∀ v ∈ acc, v < 64) → b64Go l acc pads = some out →
    (∀ b ∈ out, b < 256) ∧ out.length ≤ l.length + acc.length := by
  intro l
  induction l with
  | nil =>
    intro acc pads out hacc h
    rw [b64Go.eq_def] at h
    simp only at h
    split_ifs at h with he
    · simp only [Option.some.injEq] at h
      subst h
      exact ⟨by simp, by simp⟩
  | cons c rest ih =>
    intro acc pads out hacc h
    rw [b64Go.eq_def] at h
    simp only at h
    split_ifs at h with h61 hal hfull
    · simp only [Option.some.injEq] at h
      subst h
      have hb := emitPartial_bounds acc hacc
      exact ⟨hb.1, by have := hb.2; simp only [List.length_cons]; omega⟩
    · have hb := ih acc (pads + 1) out hacc h
      exact ⟨hb.1, by have := hb.2; simp only [List.length_cons] at *; omega⟩
    · have hb := ih acc pads out hacc h
      exact ⟨hb.1, by have := hb.2; simp only [List.length_cons] at *; omega⟩
    · split at h
      · rename_i heq
        have hb := ih acc pads out hacc h
        exact ⟨hb.1, by have := hb.2; simp only [List.length_cons] at *; omega⟩
      · rename_i v hv
        have hall : ∀ x ∈ acc ++ [v], x < 64 := by
          intro x hx
          rcases List.mem_append.mp hx with hx | hx
          · exact hacc x hx
          · rw [List.mem_singleton] at hx
            subst hx
            exact b64Val_lt64 c _ hv
        split at h
        · rename_i a b c2 d heq
          rcases hgo : b64Go rest [] 0 with _ | out2 <;> rw [hgo] at h
          · cases h
          · simp only [Option.map_some', Option.some.injEq] at h
            subst h
            have hb := ih [] 0 out2 (by simp) hgo
            have hlacc : acc.length = 3 := by
              have := congrArg List.length heq
              simp at this
              omega
            have ha : a < 64 := hall a (by rw [heq]; simp)
            have hbv : b < 64 := hall b (by rw [heq]; simp)
            have hc2 : c2 < 64 := hall c2 (by rw [heq]; simp)
            have hd : d < 64 := hall d (by rw [heq]; simp)
            constructor
            · intro x hx
              rcases List.mem_append.mp hx with hx | hx
              · simp only [List.mem_cons, List.not_mem_nil, or_false] at hx
                rcases hx with rfl | rfl | rfl <;> omega
              · exact hb.1 x hx
            · have := hb.2
              simp only [List.length_append, List.length_cons, List.length_nil] at *
              omega
        · have hb := ih (acc ++ [v]) 0 out hall h
          refine ⟨hb.1, ?_⟩
          have := hb.2
          simp only [List.length_append, List.length_cons, List.length_nil] at *
          omega

theorem hexDigitVal_lt (c v : Nat) (h : hexDigitVal c = some v) : v < 16 := by
  rw [hexDigitVal] at h
  split_ifs at h <;> simp_all <;> omega

theorem fromhexPy_bounds_go : ∀ (n : Nat) (l : List Nat), l.length ≤ n → ∀ out,
    fromhexPy l = some out → (∀ b ∈ out, b < 256) ∧ out.length ≤ l.length := by
  intro n
  induction n with
  | zero =>
    intro l hl out h
    have hnil : l = [] := List.eq_nil_of_length_eq_zero (by omega)
    subst hnil
    rw [fromhexPy] at h
    simp only [Option.some.injEq] at h
    subst h
    exact ⟨by simp, by simp⟩
  | succ n ih =>
    intro l hl out h
    match l with
    | [] =>
      rw [fromhexPy] at h
      simp only [Option.some.injEq] at h
      subst h
      exact ⟨by simp, by simp⟩
    | c :: r =>
      rw [fromhexPy.eq_def] at h
      simp only at h
      split_ifs at h with hws
      · have hb := ih r (by simp at hl; omega) out h
        refine ⟨hb.1, ?_⟩
        have := hb.2
        simp only [List.length_cons]
        omega
      · rcases hx : hexDigitVal c with _ | x <;> rw [hx] at h <;>
          rcases r with _ | ⟨d, r2⟩ <;> simp only at h
        · cases h
        · cases h
        · cases h
        · rcases hy : hexDigitVal d with _ | y <;> rw [hy] at h
          · cases h
          · rcases hrec : fromhexPy r2 with _ | out2 <;> rw [hrec] at h
            · cases h
            · simp only [Option.map_some', Option.some.injEq] at h
              subst h
              have hb := ih r2 (by simp at hl ⊢; omega) out2 hrec
              constructor
              · intro b hb2
                rcases List.mem_cons.mp hb2 with rfl | hb3
                · have h1 := hexDigitVal_lt c x hx
                  have h2 := hexDigitVal_lt d y hy
                  omega
                · exact hb.1 b hb3
              · have := hb.2
                simp at hl ⊢
                omega

theorem resolve_psk_bounds (p : List Nat) (h : ∀ b ∈ p, b < 256) :
    (∀ b ∈ resolve_psk p, b < 256) ∧ (resolve_psk p).length ≤ p.length + 32 := by
  rw [resolve_psk]
  split_ifs with h0x
  · rcases hf : fromhexPy (p.drop 2) with _ | bs <;> simp only
    · constructor
      · intro b hb
        exact h b (List.mem_of_mem_take hb)
      · have h2 := List.length_take_le 32 p
        omega
    · have hb := fromhexPy_bounds_go (p.drop 2).length (p.drop 2) le_rfl bs hf
      constructor
      · exact hb.1
      · have := hb.2
        have h3 : (p.drop 2).length ≤ p.length := by simp
        omega
  · rcases hf : b64decodePy p with _ | bs <;> simp only
    · constructor
      · intro b hb
        exact h b (List.mem_of_mem_take hb)
      · have h2 := List.length_take_le 32 p
        omega
    · rw [b64decodePy] at hf
      split_ifs at hf with hany
      have hb := b64Go_bounds p [] 0 bs (by simp) hf
      constructor
      · exact hb.1
      · have := hb.2
        simp only [List.length_nil] at this
        omega

theorem base64url_encode_ne_nil (bs : List Nat) (h : bs ≠ []) : base64url_encode bs ≠ [] := by
  match bs with
  | [b1] => simp [base64url_encode]
  | [b1, b2] => simp [base64url_encode]
  | b1 :: b2 :: b3 :: r => simp [base64url_encode]

/-! ### Byte ranges of serialized messages -/

theorem fieldsOfModule_valBytes (m : ModuleSettingsP) : ∀ f ∈ fieldsOfModule m, valBytesLt f.2 := by
  intro f hf
  simp only [fieldsOfModule] at hf
  rcases List.mem_append.mp hf with hf | hf <;> rw [mem_ite_block hf] <;> trivial

theorem serModule_mem_lt (m : ModuleSettingsP) : ∀ b ∈ serModule m, b < 256 :=
  serFields_mem_lt _ (fieldsOfModule_valBytes m)

theorem fieldsOfLora_valBytes (l : LoRaConfigP) : ∀ f ∈ fieldsOfLora l, valBytesLt f.2 := by
  intro f hf
  rcases mem_fieldsOfLora hf with rfl | rfl | rfl | rfl | rfl | rfl | rfl | rfl | rfl |
    rfl | rfl | rfl | rfl | rfl <;> trivial

theorem serSettings_mem_lt (s : ChannelSettingsP) (hname : ∀ b ∈ s.name, b < 256)
    (hpsk : ∀ b ∈ s.psk, b < 256) : ∀ b ∈ serSettings s, b < 256 := by
  refine serFields_mem_lt _ ?_
  intro f hf
  rcases mem_fieldsOfSettings hf with rfl | rfl | rfl | rfl | rfl | rfl | ⟨m, hm, rfl⟩
  · trivial
  · exact hpsk
  · exact hname
  · trivial
  · trivial
  · trivial
  · exact serModule_mem_lt m

theorem serChannelSet_mem_lt (ss : List ChannelSettingsP) (lp : Option LoRaConfigP)
    (hss : ∀ s ∈ ss, (∀ b ∈ s.name, b < 256) ∧ (∀ b ∈ s.psk, b < 256)) :
    ∀ b ∈ serChannelSet { settings := ss, lora_config := lp }, b < 256 := by
  refine serFields_mem_lt _ ?_
  intro f hf
  simp only [fieldsOfChannelSet] at hf
  rcases List.mem_append.mp hf with hf | hf
  · obtain ⟨s, hs, rfl⟩ := List.mem_map.mp hf
    exact serSettings_mem_lt s (hss s hs).1 (hss s hs).2
  · cases lp with
    | none => simp at hf
    | some l =>
      simp only [List.mem_singleton] at hf
      subst hf
      exact serFields_mem_lt _ (fieldsOfLora_valBytes l)

theorem serChannelSet_ne_nil (ss : List ChannelSettingsP) (lp : Option LoRaConfigP)
    (h : ss ≠ []) : serChannelSet { settings := ss, lora_config := lp } ≠ [] := by
  rcases ss with _ | ⟨s, t⟩
  · exact absurd rfl h
  · have hne := serField_ne_nil (1, WVal.bytes (serSettings s))
    simp only [serChannelSet, fieldsOfChannelSet, List.map_cons, List.cons_append, serFields,
      ne_eq, List.append_eq_nil]
    tauto

/-! ### Well-formed encoder inputs -/

/-- The input value fits a `uint32` field assignment. -/
def u32ok : Option Int → Bool
  | none => true
  | some x => decide (0 ≤ x ∧ x < 4294967296)

/-- The input value fits an `int32` field assignment. -/
def i32ok : Option Int → Bool
  | none => true
  | some x => decide (-2147483648 ≤ x ∧ x < 2147483648)

/-- The input pattern fits a `float` field assignment. -/
def f32ok : Option Nat → Bool
  | none => true
  | some p => decide (p < 4294967296)

/-- A LoRa input dictionary every checked assignment of which succeeds. -/
def loraWF (ld : LoRaSpecIn) : Bool :=
  u32ok ld.bandwidth && u32ok ld.spread_factor && u32ok ld.coding_rate &&
  f32ok ld.frequency_offset && u32ok ld.hop_limit && i32ok ld.tx_power &&
  u32ok ld.channel_num && f32ok ld.override_frequency

/-- A channel spec the encoder accepts and whose built settings stay inside
protobuf limits: an in-range `position_precision` (when given), a valid
UTF-8 name of bounded length, and a PSK string of bounded length, both made
of byte-sized units. -/
def specWF (cd : ChannelSpec) : Bool :=
  (match cd.module_settings with
   | none => true
   | some m =>
     match m.position_precision with
     | none => true
     | some pp => decide (0 ≤ pp ∧ pp < 4294967296)) &&
  utf8Valid (cd.name.getD []) &&
  decide ((cd.name.getD []).length < 1048576) &&
  (cd.name.getD []).all (fun b => decide (b < 256)) &&
  (match cd.psk with
   | none => true
   | some p => decide (p.length < 1048576) && p.all (fun b => decide (b < 256)))

theorem optU32_ok (o : Option Int) (h : u32ok o = true) :
    ∃ n, optU32 o = .ok n ∧ n < 4294967296 := by
  cases o with
  | none => exact ⟨0, rfl, by norm_num⟩
  | some x =>
    rw [u32ok] at h
    simp only [decide_eq_true_eq] at h
    refine ⟨x.toNat, ?_, by omega⟩
    rw [optU32, if_pos h]

theorem optI32_ok (o : Option Int) (h : i32ok o = true) : ∃ z, optI32 o = .ok z := by
  cases o with
  | none => exact ⟨0, rfl⟩
  | some x =>
    rw [i32ok] at h
    simp only [decide_eq_true_eq] at h
    exact ⟨x, by rw [optI32, if_pos h]⟩

theorem optF32_ok (o : Option Nat) (h : f32ok o = true) :
    ∃ n, optF32 o = .ok n ∧ n < 4294967296 := by
  cases o with
  | none => exact ⟨0, rfl, by norm_num⟩
  | some p =>
    rw [f32ok] at h
    simp only [decide_eq_true_eq] at h
    exact ⟨p, by rw [optF32, if_pos h], h⟩

theorem ite_le {c : Prop} [Decidable c] {a b n : Nat} (ha : a ≤ n) (hb : b ≤ n) :
    (if c then a else b) ≤ n := by
  split <;> assumption

theorem preset_map_le (p : List Nat) : preset_map p ≤ 8 := by
  unfold preset_map
  exact (ite_le (by norm_num) (ite_le (by norm_num) (ite_le (by norm_num) (ite_le (by norm_num) (ite_le (by norm_num) (ite_le (by norm_num) (ite_le (by norm_num) (ite_le (by norm_num) (ite_le (by norm_num) (ite_le (by norm_num) (ite_le (by norm_num) (ite_le (by norm_num) (ite_le (by norm_num) (ite_le (by norm_num) (ite_le (by norm_num) (ite_le (by norm_num) (by norm_num)))))))))))))))))

theorem region_map_le (r : List Nat) : region_map r ≤ 15 := by
  unfold region_map
  exact (ite_le (by norm_num) (ite_le (by norm_num) (ite_le (by norm_num) (ite_le (by norm_num) (ite_le (by norm_num) (ite_le (by norm_num) (ite_le (by norm_num) (ite_le (by norm_num) (ite_le (by norm_num) (ite_le (by norm_num) (ite_le (by norm_num) (ite_le (by norm_num) (ite_le (by norm_num) (ite_le (by norm_num) (ite_le (by norm_num) (by norm_num))))))))))))))))

theorem opt_preset_le (o : Option (List Nat)) : (o.map preset_map).getD 0 ≤ 8 := by
  cases o with
  | none => simp
  | some p => simpa using preset_map_le p

theorem opt_region_le (o : Option (List Nat)) : (o.map region_map).getD 0 ≤ 15 := by
  cases o with
  | none => simp
  | some r => simpa using region_map_le r

theorem ebind_ok {α β : Type} (a : α) (f : α → Except String β) :
    (Except.ok a : Except String α) >>= f = f a := rfl

theorem build_lora_ok (lo : Option LoRaSpecIn)
    (h : ∀ ld, lo = some ld → loraWF ld = true) :
    ∃ lp, build_lora lo = .ok lp ∧ ∀ l, lp = some l → loraBounds l := by
  cases lo with
  | none => exact ⟨none, rfl, fun l hl => by cases hl⟩
  | some ld =>
    have hw := h ld rfl
    simp only [loraWF, Bool.and_eq_true] at hw
    obtain ⟨⟨⟨⟨⟨⟨⟨hbw, hsf⟩, hcr⟩, hfo⟩, hhl⟩, htp⟩, hcn⟩, hof⟩ := hw
    obtain ⟨bw, hbwE, hbwLt⟩ := optU32_ok _ hbw
    obtain ⟨sf, hsfE, hsfLt⟩ := optU32_ok _ hsf
    obtain ⟨cr, hcrE, hcrLt⟩ := optU32_ok _ hcr
    obtain ⟨fo, hfoE, hfoLt⟩ := optF32_ok _ hfo
    obtain ⟨hl2, hhlE, hhlLt⟩ := optU32_ok _ hhl
    obtain ⟨tp, htpE⟩ := optI32_ok _ htp
    obtain ⟨cn, hcnE, hcnLt⟩ := optU32_ok _ hcn
    obtain ⟨ofq, hofE, hofLt⟩ := optF32_ok _ hof
    have hmp := opt_preset_le ld.modem_preset
    have hrg := opt_region_le ld.region
    refine ⟨some
      { use_preset := ld.use_preset.getD false
        modem_preset := (ld.modem_preset.map preset_map).getD 0
        bandwidth := bw
        spread_factor := sf
        coding_rate := cr
        frequency_offset := fo
        region := (ld.region.map region_map).getD 0
        hop_limit := hl2
        tx_enabled := ld.tx_enabled.getD false
        tx_power := tp
        channel_num := cn
        override_duty_cycle := ld.override_duty_cycle.getD false
        sx126x_rx_boosted_gain := ld.sx126x_rx_boosted_gain.getD false
        override_frequency := ofq }, ?_, ?_⟩
    · simp only [build_lora, hbwE, hsfE, hcrE, hfoE, hhlE, htpE, hcnE, hofE, ebind_ok]
      rfl
    · intro l hl
      simp only [Option.some.injEq] at hl
      subst hl
      refine ⟨?_, ?_, ?_, ?_, ?_, ?_, ?_, ?_, ?_⟩ <;> simp only [] <;> omega

/-- The `position_precision` check of the channel-spec predicate alone. -/
def modOk : Option ModuleSpecIn → Bool
  | none => true
  | some m =>
    match m.position_precision with
    | none => true
    | some pp => decide (0 ≤ pp ∧ pp < 4294967296)

theorem build_module_settings_ok (o : Option ModuleSpecIn) (h : modOk o = true) :
    ∃ m, build_module_settings o = .ok m ∧ m.position_precision < 4294967296 := by
  cases o with
  | none => exact ⟨{ position_precision := 32 }, rfl, by norm_num⟩
  | some msp =>
    rw [modOk] at h
    rw [build_module_settings]
    cases hpp : msp.position_precision with
    | none =>
      simp only [hpp, Option.getD_none]
      rw [if_neg (by norm_num)]
      exact ⟨_, rfl, by norm_num⟩
    | some pp =>
      rw [hpp] at h
      simp only [decide_eq_true_eq] at h
      simp only [hpp, Option.getD_some]
      rw [if_neg (by omega)]
      exact ⟨_, rfl, show pp.toNat < 4294967296 by omega⟩

theorem build_settings_wf (cd : ChannelSpec) (h : specWF cd = true) :
    ∃ s, build_settings cd = .ok s ∧ builtSettingsWF s := by
  simp only [specWF, Bool.and_eq_true] at h
  obtain ⟨⟨⟨⟨hmod, hutf⟩, hnl⟩, hnb⟩, hpsk⟩ := h
  obtain ⟨m, hm, hmlt⟩ := build_module_settings_ok cd.module_settings hmod
  have hpskB : (∀ b ∈ (match cd.psk with
        | some p => if p ≠ [] then resolve_psk p else []
        | none => []), b < 256) ∧
      (match cd.psk with
        | some p => if p ≠ [] then resolve_psk p else []
        | none => ([] : List Nat)).length < 1048608 := by
    cases hpk : cd.psk with
    | none => exact ⟨by simp, by simp⟩
    | some p =>
      rw [hpk] at hpsk
      simp only [Bool.and_eq_true, decide_eq_true_eq, List.all_eq_true] at hpsk
      obtain ⟨hl, hb⟩ := hpsk
      simp only
      by_cases hne : p ≠ []
      · rw [if_pos hne]
        have hbb : ∀ b ∈ p, b < 256 := fun b hbm => by simpa using hb b hbm
        have hr := resolve_psk_bounds p hbb
        exact ⟨hr.1, by omega⟩
      · rw [if_neg hne]
        exact ⟨by simp, by simp⟩
  refine ⟨{ name := cd.name.getD []
            psk := match cd.psk with
                   | some p => if p ≠ [] then resolve_psk p else []
                   | none => []
            uplink_enabled := cd.uplink_enabled.getD false
            downlink_enabled := cd.downlink_enabled.getD false
            module_settings := some m }, ?_, ?_⟩
  · rw [build_settings, hm]
  · refine ⟨hutf, ?_, hpskB.2, ?_, hpskB.1, rfl, rfl, m, rfl, hmlt⟩
    · simpa using hnl
    · intro b hb
      simpa using (List.all_eq_true.mp hnb) b hb

theorem encode_loop_ok : ∀ (specs : List ChannelSpec) (i : Nat),
    (∀ cd ∈ specs, specWF cd = true) →
    ∃ sl, encode_loop i specs = .ok sl ∧ sl.length = specs.length ∧
      ∀ s ∈ sl, builtSettingsWF s := by
  intro specs
  induction specs with
  | nil => intro i _; exact ⟨[], rfl, rfl, by simp⟩
  | cons cd rest ih =>
    intro i h
    obtain ⟨s, hs, hwf⟩ := build_settings_wf cd (h cd (by simp))
    obtain ⟨tl, htl, hlen, hall⟩ := ih (i + 1) (fun x hx => h x (by simp [hx]))
    refine ⟨s :: tl, ?_, by simp [hlen], ?_⟩
    · rw [encode_loop, build_channel, hs, htl]
      rfl
    · intro x hx
      rcases List.mem_cons.mp hx with rfl | hx
      · exact hwf
      · exact hall x hx

/-! ### The decoder accepts the encoder's wire image -/

theorem obind_some {α β : Type} (a : α) (f : α → Option β) : (some a >>= f) = f a := rfl

theorem obindm_some {α β : Type} (a : α) (f : α → Option β) : Option.bind (some a) f = f a := rfl

theorem settingsStep_isSome (s : ChannelSettingsP) (h : builtSettingsWF s) :
    ∀ f ∈ fieldsOfSettings s, ∀ acc, (settingsStep acc f).isSome = true := by
  obtain ⟨hutf, _, _, _, _, _, _, m0, hm0, hm0lt⟩ := h
  intro f hf acc
  rcases mem_fieldsOfSettings hf with rfl | rfl | rfl | rfl | rfl | rfl | ⟨m, hm, rfl⟩
  · simp [settingsStep]
  · simp [settingsStep]
  · simp [settingsStep, hutf]
  · simp [settingsStep]
  · simp [settingsStep]
  · simp [settingsStep]
  · have hmeq : m = m0 := by rw [hm0] at hm; exact (Option.some.injEq m m0).mp hm.symm
    subst hmeq
    have hp : parseWire (serModule m) = some (fieldsOfModule m) :=
      parseWire_serFields _ (WF_fieldsOfModule m hm0lt)
    simp [settingsStep, hp]

theorem parseChannelSettings_ser (s : ChannelSettingsP) (h : builtSettingsWF s) :
    ∃ sd, parseChannelSettings (serSettings s) = some sd := by
  rw [parseChannelSettings, serSettings, parseWire_serFields _ (WF_fieldsOfSettings s h)]
  exact list_foldlM_isSome settingsStep (fieldsOfSettings s) {} (settingsStep_isSome s h)

theorem foldCS : ∀ (ss : List ChannelSettingsP) (init : ChannelSetP),
    (∀ s ∈ ss, builtSettingsWF s) →
    ∃ cs, List.foldlM channelSetStep init
        (ss.map fun s => (1, WVal.bytes (serSettings s))) = some cs ∧
      cs.settings.length = init.settings.length + ss.length ∧
      cs.lora_config = init.lora_config := by
  intro ss
  induction ss with
  | nil =>
    intro init _
    exact ⟨init, by rw [List.map_nil, List.foldlM_nil]; rfl, by simp, rfl⟩
  | cons s t ih =>
    intro init h
    obtain ⟨sd, hsd⟩ := parseChannelSettings_ser s (h s (by simp))
    have hstep : channelSetStep init (1, WVal.bytes (serSettings s)) =
        some { init with settings := init.settings ++ [sd] } := by
      simp [channelSetStep, hsd]
    obtain ⟨cs, hcs, hlen2, hlc⟩ :=
      ih { init with settings := init.settings ++ [sd] } (fun x hx => h x (by simp [hx]))
    refine ⟨cs, ?_, ?_, ?_⟩
    · rw [List.map_cons, List.foldlM_cons, hstep, obind_some]
      exact hcs
    · rw [hlen2]
      show (init.settings ++ [sd]).length + t.length = init.settings.length + (s :: t).length
      simp only [List.length_append, List.length_cons, List.length_singleton, List.length_nil]
      omega
    · rw [hlc]

theorem fieldsOfChannelSet_none (ss : List ChannelSettingsP) :
    fieldsOfChannelSet { settings := ss, lora_config := none } =
      ss.map (fun s => (1, WVal.bytes (serSettings s))) := by
  simp [fieldsOfChannelSet]

theorem fieldsOfChannelSet_some (ss : List ChannelSettingsP) (l : LoRaConfigP) :
    fieldsOfChannelSet { settings := ss, lora_config := some l } =
      ss.map (fun s => (1, WVal.bytes (serSettings s))) ++
        [(2, WVal.bytes (serFields (fieldsOfLora l)))] := rfl

theorem parseChannelSet_ser (ss : List ChannelSettingsP) (lp : Option LoRaConfigP)
    (hss : ∀ s ∈ ss, builtSettingsWF s) (hlp : ∀ l, lp = some l → loraBounds l) :
    ∃ cs, parseChannelSet (serChannelSet { settings := ss, lora_config := lp }) = some cs ∧
      cs.settings.length = ss.length := by
  have hWF : ∀ f ∈ fieldsOfChannelSet { settings := ss, lora_config := lp }, WFField f := by
    intro f hf
    simp only [fieldsOfChannelSet] at hf
    rcases List.mem_append.mp hf with hf | hf
    · obtain ⟨s, hs, rfl⟩ := List.mem_map.mp hf
      refine ⟨by norm_num, by norm_num, ?_⟩
      have hl := serSettings_len s (hss s hs)
      obtain ⟨_, hnl, hpl, _⟩ := hss s hs
      show (serSettings s).length < 18446744073709551616
      omega
    · cases lp with
      | none => simp at hf
      | some l =>
        simp only [List.mem_singleton] at hf
        subst hf
        refine ⟨by norm_num, by norm_num, ?_⟩
        show (serFields (fieldsOfLora l)).length < 18446744073709551616
        have := serLora_len l (hlp l rfl)
        omega
  obtain ⟨cs1, hcs1, hlen1, hlc1⟩ := foldCS ss {} hss
  rw [parseChannelSet, serChannelSet, parseWire_serFields _ hWF]
  cases lp with
  | none =>
    refine ⟨cs1, ?_, by rw [hlen1]; simp⟩
    rw [obindm_some, fieldsOfChannelSet_none]
    exact hcs1
  | some l =>
    have hpl2 : parseWire (serFields (fieldsOfLora l)) = some (fieldsOfLora l) :=
      parseWire_serFields _ (WF_fieldsOfLora l (hlp l rfl))
    have hstep2 : channelSetStep cs1 (2, WVal.bytes (serFields (fieldsOfLora l))) =
        some { cs1 with
          lora_config := some ((fieldsOfLora l).foldl loraStep (cs1.lora_config.getD {})) } := by
      simp [channelSetStep, hpl2]
    refine ⟨{ cs1 with
        lora_config := some ((fieldsOfLora l).foldl loraStep (cs1.lora_config.getD {})) },
      ?_, ?_⟩
    · rw [obindm_some, fieldsOfChannelSet_some, List.foldlM_append, hcs1, obind_some,
        List.foldlM_cons, hstep2, obind_some, List.foldlM_nil]
      rfl
    · have hpr : ({ cs1 with
          lora_config := some ((fieldsOfLora l).foldl loraStep (cs1.lora_config.getD {})) } :
            ChannelSetP).settings = cs1.settings := rfl
      rw [hpr, hlen1]
      simp

theorem decodeBytes_first (bs : List Nat) (m : Matched)
    (h : attemptOf .channelSet bs = some (some m)) :
    decodeBytes false bs = (some m, []) := by
  simp [decodeBytes, try_channel_decoders, runAttempts, h]

theorem validate_of_len (cs : ChannelSetP) (h : cs.settings.length ≠ 0) :
    validate_channel_set_data cs = true := by
  have hne : cs.settings ≠ [] := by
    intro hc
    rw [hc] at h
    simp at h
  simp [validate_channel_set_data, hne]

theorem attemptOf_config (bs : List Nat) (cs : ChannelSetP)
    (hp : parseChannelSet bs = some cs) (hv : validate_channel_set_data cs = true) :
    attemptOf .channelSet bs = some (some (.config cs)) := by
  rw [attemptOf, hp]
  simp [hv]

/-- Claim C1, amended: for every non-empty list of well-formed channel
specs (and a LoRa input all of whose checked assignments are in range),
`encode_channel_set` succeeds and its round-trip self-decode succeeds as a
`ChannelSet` with one settings entry per input channel, so the result
carries the decoded `Config` mapping; the unamended claim fails only at the
empty list (see the counterexample). -/
theorem claim_c1_amended (specs : List ChannelSpec) (lora : Option LoRaSpecIn)
    (hne : specs ≠ [])
    (hwf : ∀ cd ∈ specs, specWF cd = true)
    (hlw : ∀ ld, lora = some ld → loraWF ld = true) :
    ∃ url size cs,
      encode_channel_set specs lora = .ok url specs.length size (some (.config cs)) ∧
      decode_channel_url url = .matched url (.config cs) ∧
      cs.settings.length = specs.length := by
  obtain ⟨sl, hsl, hlenl, hswf⟩ := encode_loop_ok specs 0 hwf
  obtain ⟨lp, hlp, hlb⟩ := build_lora_ok lora hlw
  have hsplen : specs.length ≠ 0 := by
    rcases specs with _ | ⟨c, t⟩
    · exact absurd rfl hne
    · simp
  have hslne : sl ≠ [] := by
    intro hc
    rw [hc] at hlenl
    exact hsplen hlenl.symm
  have hpne : serChannelSet { settings := sl, lora_config := lp } ≠ [] :=
    serChannelSet_ne_nil sl lp hslne
  have hpmem : ∀ b ∈ serChannelSet { settings := sl, lora_config := lp }, b < 256 :=
    serChannelSet_mem_lt sl lp
      (fun s hs => ⟨(hswf s hs).2.2.2.1, (hswf s hs).2.2.2.2.1⟩)
  have hencne : base64url_encode (serChannelSet { settings := sl, lora_config := lp }) ≠ [] :=
    base64url_encode_ne_nil _ hpne
  have henc47 : ∀ c ∈ base64url_encode (serChannelSet { settings := sl, lora_config := lp }),
      c ≠ 47 := by
    intro c hc
    obtain ⟨v, hv, rfl⟩ := base64url_encode_mem _ hpmem c hc
    exact b64uChr_ne47 v hv
  have hdec64 : base64url_decode
      (base64url_encode (serChannelSet { settings := sl, lora_config := lp })) =
      some (serChannelSet { settings := sl, lora_config := lp }) :=
    b64url_roundtrip _ hpmem
  obtain ⟨cs, hcs, hcslen⟩ := parseChannelSet_ser sl lp hswf hlb
  have hval : validate_channel_set_data cs = true := by
    apply validate_of_len
    rw [hcslen, hlenl]
    exact hsplen
  have hatt : attemptOf .channelSet (serChannelSet { settings := sl, lora_config := lp }) =
      some (some (.config cs)) := attemptOf_config _ cs hcs hval
  have hrun : decodeBytes false (serChannelSet { settings := sl, lora_config := lp }) =
      (some (.config cs), []) := decodeBytes_first _ _ hatt
  have hdecode : decode_channel_url (meshtasticUrlPrefix ++
      base64url_encode (serChannelSet { settings := sl, lora_config := lp })) =
      .matched (meshtasticUrlPrefix ++
        base64url_encode (serChannelSet { settings := sl, lora_config := lp }))
        (.config cs) := by
    rw [decode_std_url _ hencne henc47, hdec64]
    simp only
    rw [hrun]
  refine ⟨meshtasticUrlPrefix ++
      base64url_encode (serChannelSet { settings := sl, lora_config := lp }),
    (serChannelSet { settings := sl, lora_config := lp }).length, cs, ?_, hdecode,
    by rw [hcslen, hlenl]⟩
  rw [encode_channel_set, hsl]
  simp only
  rw [hlp]
  simp only
  rw [hdecode]

/-- Witness for the amended claim C1 at a concrete one-channel input. -/
theorem claim_c1_witness :
    (∀ cd ∈ ([{ role := some (strBytes "primary"),
                name := some (strBytes "Primary"),
                psk := some (strBytes "0xAABBCC") }] : List ChannelSpec), specWF cd = true) ∧
    ∃ url size cs,
      encode_channel_set [{ role := some (strBytes "primary"),
                            name := some (strBytes "Primary"),
                            psk := some (strBytes "0xAABBCC") }] none =
        .ok url 1 size (some (.config cs)) ∧
      decode_channel_url url = .matched url (.config cs) ∧
      cs.settings.length = 1 :=
  ⟨by decide, claim_c1_amended _ none (by decide) (by decide) (fun ld h => nomatch h)⟩
